import Mathlib

/-!
# dingtalk-pic-notify: a shallow embedding of `main.go`

The program uploads a picture to an object-storage bucket, sweeps date folders
older than three days, and posts a signed notification to a chat webhook.

Layout of this development:

* `Go.*`      : the parts of the Go standard library that `main.go` calls
                (`strings`, `time`, `path/filepath`, `fmt` verbs, `crypto/sha256`,
                `crypto/hmac`, `encoding/base64`), written after their sources;
* `Oss.*`     : the object-storage interface the program talks to, and an
                in-memory bucket with S3-style listing;
* `DingtalkPicNotify.*` : the functions of `main.go` themselves;
* the theorems.

Go strings are byte strings.  They are embedded as Lean `String`s and every
library function below works on the list of characters.  The functions that
inspect single bytes (`time.Parse`, `filepath.Base`, `strings.TrimPrefix`)
only ever compare against ASCII bytes, and an ASCII byte never occurs inside
the encoding of a non-ASCII character, so byte-wise and character-wise
readings agree on every valid UTF-8 string.
-/

namespace Go

/-! ## Machine integers -/

/-- Two's-complement reading of an integer as an `int64`. -/
def wrapInt64 (x : Int) : Int := (x + 2 ^ 63) % 2 ^ 64 - 2 ^ 63

/-- Reading of an integer as a `uint64`. -/
def wrapUint64 (x : Int) : Int := x % 2 ^ 64

/-! ## `strings` -/

/-- `strings.HasPrefix`. -/
def HasPrefix (s pre : String) : Bool := pre.data.isPrefixOf s.data

/-- `strings.HasSuffix`. -/
def HasSuffix (s suf : String) : Bool := suf.data.isSuffixOf s.data

/-- `strings.TrimPrefix`: `s` without the leading `pre`, or `s` itself. -/
def TrimPrefix (s pre : String) : String :=
  if HasPrefix s pre then String.mk (s.data.drop pre.data.length) else s

/-- `strings.TrimSuffix`: `s` without the trailing `suf`, or `s` itself. -/
def TrimSuffix (s suf : String) : String :=
  if HasSuffix s suf then String.mk (s.data.take (s.data.length - suf.data.length)) else s

/-! ## `fmt` verbs -/

/-- The verb `%d` on a signed integer. -/
def fmtInt (x : Int) : String :=
  if x < 0 then "-" ++ Nat.repr x.natAbs else Nat.repr x.natAbs

/-! ## `path/filepath` (Unix) -/

/-- The loop `for len(path) > 0 && os.IsPathSeparator(path[len(path)-1])`,
run on the reversed path. -/
def dropSeparators : List Char → List Char
  | [] => []
  | c :: cs => if c = '/' then dropSeparators cs else c :: cs

/-- `filepath.Base`: the last element of the path. -/
def Base (path : String) : String :=
  if path = "" then "."
  else
    let stripped := dropSeparators path.data.reverse
    let last := (stripped.takeWhile (fun c => c != '/')).reverse
    if last = [] then "/" else String.mk last

end Go

namespace Go.time

/-! ## `time`: calendar arithmetic (`time.go`) -/

def secondsPerDay : Int := 86400
def daysPer400Years : Int := 365 * 400 + 97
def daysPer100Years : Int := 365 * 100 + 24
def daysPer4Years : Int := 365 * 4 + 1

def absoluteZeroYear : Int := -292277022399
def internalYear : Int := 1

/-- The constant `(absoluteZeroYear - internalYear) * 365.2425 * secondsPerDay`. -/
def absoluteToInternal : Int := (absoluteZeroYear - internalYear) * 3652425 * secondsPerDay / 10000
def internalToAbsolute : Int := -absoluteToInternal
def unixToInternal : Int := (1969 * 365 + 1969 / 4 - 1969 / 100 + 1969 / 400) * secondsPerDay
def internalToUnix : Int := -unixToInternal

/-- `isLeap`. -/
def isLeap (year : Int) : Bool := year % 4 == 0 && (year % 100 != 0 || year % 400 == 0)

/-- The table `daysBefore`: days in a non-leap year before month `m+1` starts. -/
def daysBefore : List Int := [0, 31, 59, 90, 120, 151, 181, 212, 243, 273, 304, 334, 365]

/-- `daysIn`. -/
def daysIn (m : Int) (year : Int) : Int :=
  if m == 2 && isLeap year then 29
  else daysBefore.getD m.toNat 0 - daysBefore.getD (m.toNat - 1) 0

/-- `daysSinceEpoch`: days from the absolute epoch to the start of `year`
(in `uint64` arithmetic). -/
def daysSinceEpoch (year : Int) : Int :=
  let y := wrapUint64 (year - absoluteZeroYear)
  let n := y / 400
  let y := y - 400 * n
  let d := daysPer400Years * n
  let n := y / 100
  let y := y - 100 * n
  let d := d + daysPer100Years * n
  let n := y / 4
  let y := y - 4 * n
  let d := d + daysPer4Years * n
  let n := y
  wrapUint64 (d + 365 * n)

/-- A `time.Time`: an instant (`unixSec` seconds and `nsec` nanoseconds after
the Unix epoch) together with the offset east of UTC, in seconds, that its
location has at that instant.  Go keeps the seconds in an `int64`; the
instants of this development are far inside that range. -/
structure Time where
  unixSec : Int
  nsec : Int
  offset : Int
deriving DecidableEq, Repr

/-- `time.Date(year, month, day, 0, 0, 0, 0, time.UTC)` for a month in `1..12`
(the fields `time.Parse` hands over are validated, so the normalisation steps
of `Date` leave them alone). -/
def Date (year month day : Int) : Time :=
  let d := daysSinceEpoch year
  let d := d + daysBefore.getD (month.toNat - 1) 0
  let d := if isLeap year && month ≥ 3 then d + 1 else d
  let d := wrapUint64 (d + (day - 1))
  let abs := wrapUint64 (d * secondsPerDay)
  let unix := wrapInt64 (wrapInt64 abs + (absoluteToInternal + internalToUnix))
  { unixSec := unix, nsec := 0, offset := 0 }

/-- The instant as nanoseconds after the Unix epoch, unbounded. -/
def Time.nanos (t : Time) : Int := t.unixSec * 1000000000 + t.nsec

/-- `Time.UnixNano`: the nanoseconds in an `int64`, wrapping outside the
years 1678..2262. -/
def Time.UnixNano (t : Time) : Int := wrapInt64 (t.unixSec * 1000000000 + t.nsec)

def minDuration : Int := -(2 ^ 63)
def maxDuration : Int := 2 ^ 63 - 1

/-- `time.Hour` in nanoseconds. -/
def Hour : Int := 60 * 60 * 1000000000

/-- `Time.Add`. -/
def Time.Add (t : Time) (d : Int) : Time :=
  let dsec := Int.tdiv d 1000000000
  let nsec := t.nsec + Int.tmod d 1000000000
  if nsec ≥ 1000000000 then { t with unixSec := t.unixSec + (dsec + 1), nsec := nsec - 1000000000 }
  else if nsec < 0 then { t with unixSec := t.unixSec + (dsec - 1), nsec := nsec + 1000000000 }
  else { t with unixSec := t.unixSec + dsec, nsec := nsec }

/-- `Time.Equal`: same instant, whatever the location. -/
def Time.Equal (t u : Time) : Bool := t.unixSec == u.unixSec && t.nsec == u.nsec

/-- `Time.Before`. -/
def Time.Before (t u : Time) : Bool :=
  t.unixSec < u.unixSec || (t.unixSec == u.unixSec && t.nsec < u.nsec)

/-- `Time.Sub`: the duration `t - u`, saturating at the ends of `int64`. -/
def Time.Sub (t u : Time) : Int :=
  let d := wrapInt64 (wrapInt64 ((t.unixSec - u.unixSec) * 1000000000) + (t.nsec - u.nsec))
  if (u.Add d).Equal t then d
  else if t.Before u then minDuration
  else maxDuration

/-! ## `time.Parse` with the layout `"20060102"` (`format.go`) -/

/-- `isDigit(s, i)`. -/
def isDigit (s : List Char) (i : Nat) : Bool :=
  match s.get? i with
  | some c => decide ('0' ≤ c) && decide (c ≤ '9')
  | none => false

/-- The digit loop of `leadingInt`: the value of the leading digits, and the rest. -/
def leadingInt : Nat → List Char → Nat × List Char
  | acc, [] => (acc, [])
  | acc, c :: cs =>
    if decide ('0' ≤ c) && decide (c ≤ '9') then leadingInt (acc * 10 + (c.toNat - 48)) cs
    else (acc, c :: cs)

/-- `atoi`: an optional sign, then digits and nothing else. -/
def atoi (s : List Char) : Option Int :=
  let signed := s.head? == some '-' || s.head? == some '+'
  let neg := signed && s.head? == some '-'
  let s := if signed then s.drop 1 else s
  match leadingInt 0 s with
  | (q, []) => some (if neg then -(q : Int) else q)
  | (_, _ :: _) => none

/-- `getnum(s, fixed)`: one or two digits (exactly two when `fixed`). -/
def getnum (s : List Char) (fixed : Bool) : Option (Int × List Char) :=
  if !isDigit s 0 then none
  else if !isDigit s 1 then
    if fixed then none else some (((s.getD 0 '0').toNat - 48 : Nat), s.drop 1)
  else some ((((s.getD 0 '0').toNat - 48) * 10 + ((s.getD 1 '0').toNat - 48) : Nat), s.drop 2)

/-- `time.Parse("20060102", value)`: the layout splits into the chunks
`stdLongYear`, `stdZeroMonth`, `stdZeroDay`; no zone is given, so the result
is in UTC.  `none` stands for a `*ParseError`. -/
def Parse (value : String) : Option Time :=
  let v := value.data
  -- stdLongYear
  if v.length < 4 || !isDigit v 0 then none
  else
    match atoi (v.take 4) with
    | none => none
    | some year =>
      let v := v.drop 4
      -- stdZeroMonth
      match getnum v true with
      | none => none
      | some (month, v) =>
        if month ≤ 0 || 12 < month then none
        else
          -- stdZeroDay
          match getnum v true with
          | none => none
          | some (day, v) =>
            -- extra text
            if v.length ≠ 0 then none
            -- day out of range
            else if day < 1 || day > daysIn month year then none
            else some (Date year month day)

end Go.time

namespace Go.time

/-! ## `Time.Format` (`format.go`, `time.go`) -/

/-- `Time.abs`: seconds since the absolute epoch, on the wall clock of the
time's location (`uint64`). -/
def Time.abs (t : Time) : Int :=
  wrapUint64 (t.unixSec + t.offset + (unixToInternal + internalToAbsolute))

/-- `absDate(abs, false)`: the year of an absolute time and the day within
that year, from 0. -/
def absYearDay (abs : Int) : Int × Int :=
  let d := abs / secondsPerDay
  -- 400-year cycles
  let n := d / daysPer400Years
  let y := 400 * n
  let d := d - daysPer400Years * n
  -- 100-year cycles
  let n := d / daysPer100Years
  let n := n - n / 4
  let y := y + 100 * n
  let d := d - daysPer100Years * n
  -- 4-year cycles
  let n := d / daysPer4Years
  let y := y + 4 * n
  let d := d - daysPer4Years * n
  -- years within a 4-year cycle
  let n := d / 365
  let n := n - n / 4
  let y := y + n
  let d := d - 365 * n
  (wrapInt64 (wrapInt64 y + absoluteZeroYear), d)

/-- The second half of `absDate(abs, true)`: month and day of month of the
day `yday` (from 0) of a leap or a common year. -/
def monthDay (leap : Bool) (yday : Int) : Int × Int :=
  if leap && yday == 31 + 29 - 1 then (2, 29)
  else
    let day := if leap && yday > 31 + 29 - 1 then yday - 1 else yday
    let month := day / 31
    let stop := daysBefore.getD (month.toNat + 1) 0
    if day ≥ stop then (month + 2, day - stop + 1)
    else (month + 1, day - daysBefore.getD month.toNat 0 + 1)

/-- `absDate(abs, true)`: year, month and day of month of an absolute time. -/
def absDate (abs : Int) : Int × Int × Int :=
  let (year, yday) := absYearDay abs
  let (month, day) := monthDay (isLeap year) yday
  (year, month, day)

/-- `appendInt(b, x, width)`: decimal, zero-padded on the left to `width`. -/
def appendInt (x : Int) (width : Nat) : String :=
  let digits := Nat.repr x.natAbs
  let padded := String.mk (List.replicate (width - digits.length) '0') ++ digits
  if x < 0 then "-" ++ padded else padded

/-- `t.Format("20060102")`. -/
def Time.Format20060102 (t : Time) : String :=
  let (year, month, day) := absDate t.abs
  appendInt year 4 ++ appendInt month 2 ++ appendInt day 2

/-- `t.Format("2006年01月02日 15:04:05")`. -/
def Time.FormatChinese (t : Time) : String :=
  let (year, month, day) := absDate t.abs
  let clock := t.abs % secondsPerDay
  let hour := clock / 3600
  let min := (clock - hour * 3600) / 60
  let sec := clock - hour * 3600 - min * 60
  appendInt year 4 ++ "年" ++ appendInt month 2 ++ "月" ++ appendInt day 2 ++ "日 "
    ++ appendInt hour 2 ++ ":" ++ appendInt min 2 ++ ":" ++ appendInt sec 2

end Go.time

namespace Go.crypto

/-! ## `crypto/sha256` (`sha256.go`, `sha256block.go`), on bytes as naturals -/

/-- A value cut to 32 bits. -/
def u32 (x : Nat) : Nat := x % 4294967296

/-- `bits.RotateLeft32(x, -n)` for `0 < n < 32`. -/
def rotr (x n : Nat) : Nat := (x >>> n) ||| u32 (x <<< (32 - n))

/-- The round constants `_K`. -/
def K : List Nat :=
  [1116352408, 1899447441, 3049323471, 3921009573, 961987163, 1508970993,
   2453635748, 2870763221, 3624381080, 310598401, 607225278, 1426881987,
   1925078388, 2162078206, 2614888103, 3248222580, 3835390401, 4022224774,
   264347078, 604807628, 770255983, 1249150122, 1555081692, 1996064986,
   2554220882, 2821834349, 2952996808, 3210313671, 3336571891, 3584528711,
   113926993, 338241895, 666307205, 773529912, 1294757372, 1396182291,
   1695183700, 1986661051, 2177026350, 2456956037, 2730485921, 2820302411,
   3259730800, 3345764771, 3516065817, 3600352804, 4094571909, 275423344,
   430227734, 506948616, 659060556, 883997877, 958139571, 1322822218,
   1537002063, 1747873779, 1955562222, 2024104815, 2227730452, 2361852424,
   2428436474, 2756734187, 3204031479, 3329325298]

/-- The initial chaining value `init0 .. init7`. -/
def init : List Nat :=
  [1779033703, 3144134277, 1013904242, 2773480762,
   1359893119, 2600822924, 528734635, 1541459225]

/-- The first loop of `blockGeneric`: sixteen big-endian words of the block. -/
def words : List Nat → List Nat
  | a :: b :: c :: d :: rest => (a <<< 24 ||| b <<< 16 ||| c <<< 8 ||| d) :: words rest
  | _ => []

/-- The second loop of `blockGeneric`, `n` more words; `rev` holds the words
so far, newest first. -/
def extend : Nat → List Nat → List Nat
  | 0, rev => rev
  | n + 1, rev =>
    let v1 := rev.getD 1 0
    let t1 := rotr v1 17 ^^^ rotr v1 19 ^^^ (v1 >>> 10)
    let v2 := rev.getD 14 0
    let t2 := rotr v2 7 ^^^ rotr v2 18 ^^^ (v2 >>> 3)
    extend n (u32 (t1 + rev.getD 6 0 + t2 + rev.getD 15 0) :: rev)

/-- The working variables `a .. h`. -/
structure Vars where
  a : Nat
  b : Nat
  c : Nat
  d : Nat
  e : Nat
  f : Nat
  g : Nat
  h : Nat

/-- One pass of the third loop of `blockGeneric`, with `kw = _K[i] + w[i]`. -/
def round (v : Vars) (kw : Nat) : Vars :=
  let t1 := v.h + (rotr v.e 6 ^^^ rotr v.e 11 ^^^ rotr v.e 25)
    + ((v.e &&& v.f) ^^^ ((4294967295 - v.e) &&& v.g)) + kw
  let t2 := (rotr v.a 2 ^^^ rotr v.a 13 ^^^ rotr v.a 22)
    + ((v.a &&& v.b) ^^^ (v.a &&& v.c) ^^^ (v.b &&& v.c))
  { a := u32 (t1 + t2), b := v.a, c := v.b, d := v.c, e := u32 (v.d + t1),
    f := v.e, g := v.f, h := v.g }

/-- `blockGeneric` on one 64-byte block. -/
def block (hs : List Nat) (p : List Nat) : List Nat :=
  let w := (extend 48 (words p).reverse).reverse
  let v0 : Vars := { a := hs.getD 0 0, b := hs.getD 1 0, c := hs.getD 2 0, d := hs.getD 3 0,
                     e := hs.getD 4 0, f := hs.getD 5 0, g := hs.getD 6 0, h := hs.getD 7 0 }
  let v := (List.zipWith (fun k x => k + x) K w).foldl round v0
  List.zipWith (fun x y => u32 (x + y)) hs [v.a, v.b, v.c, v.d, v.e, v.f, v.g, v.h]

/-- `blockGeneric` on `n` consecutive blocks. -/
def blocks : Nat → List Nat → List Nat → List Nat
  | 0, hs, _ => hs
  | n + 1, hs, p => blocks n (block hs (p.take 64)) (p.drop 64)

/-- A 64-bit value as eight big-endian bytes (`binary.BigEndian.PutUint64`). -/
def putUint64 (x : Nat) : List Nat :=
  [x >>> 56 % 256, x >>> 48 % 256, x >>> 40 % 256, x >>> 32 % 256,
   x >>> 24 % 256, x >>> 16 % 256, x >>> 8 % 256, x % 256]

/-- A 32-bit value as four big-endian bytes (`binary.BigEndian.PutUint32`). -/
def putUint32 (x : Nat) : List Nat :=
  [x >>> 24 % 256, x >>> 16 % 256, x >>> 8 % 256, x % 256]

/-- The padding `checkSum` appends: `0x80`, zeros up to 56 modulo 64, and the
length in bits. -/
def padding (len : Nat) : List Nat :=
  128 :: List.replicate ((55 + 64 - len % 64) % 64) 0 ++ putUint64 (len * 8 % 2 ^ 64)

/-- The digest of a message: `sha256.New()`, `Write(msg)`, `Sum(nil)`. -/
def sha256 (msg : List Nat) : List Nat :=
  let p := msg ++ padding msg.length
  ((blocks (p.length / 64) init p).map putUint32).flatten

/-! ## `crypto/hmac` (`hmac.go`) -/

/-- The block size of SHA-256. -/
def blockSize : Nat := 64

/-- The struct `hmac` over SHA-256; `inner` is what has been written to the
inner hash so far. -/
structure HMAC where
  opad : List Nat
  ipad : List Nat
  inner : List Nat

/-- `hmac.New(sha256.New, key)`. -/
def New (key : List Nat) : HMAC :=
  let key := if key.length > blockSize then sha256 key else key
  let padded := key ++ List.replicate (blockSize - key.length) 0
  let ipad := padded.map (fun b => b ^^^ 54)
  let opad := padded.map (fun b => b ^^^ 92)
  { opad := opad, ipad := ipad, inner := ipad }

/-- `h.Write(p)`. -/
def HMAC.Write (h : HMAC) (p : List Nat) : HMAC := { h with inner := h.inner ++ p }

/-- `h.Sum(nil)`. -/
def HMAC.Sum (h : HMAC) : List Nat := sha256 (h.opad ++ sha256 h.inner)

/-! ## `encoding/base64` -/

/-- The alphabet of `base64.StdEncoding`. -/
def encodeStd : List Char :=
  "ABCDEFGHIJKLMNOPQRSTUVWXYZabcdefghijklmnopqrstuvwxyz0123456789+/".data

/-- The character for a 6-bit value. -/
def b64 (v : Nat) : Char := encodeStd.getD (v % 64) 'A'

/-- `base64.StdEncoding.EncodeToString`, as characters. -/
def encode : List Nat → List Char
  | a :: b :: c :: rest =>
    let v := a <<< 16 ||| b <<< 8 ||| c
    b64 (v >>> 18) :: b64 (v >>> 12) :: b64 (v >>> 6) :: b64 v :: encode rest
  | [a, b] =>
    let v := a <<< 16 ||| b <<< 8
    [b64 (v >>> 18), b64 (v >>> 12), b64 (v >>> 6), '=']
  | [a] =>
    let v := a <<< 16
    [b64 (v >>> 18), b64 (v >>> 12), '=', '=']
  | [] => []

/-- `base64.StdEncoding.EncodeToString`. -/
def EncodeToString (src : List Nat) : String := String.mk (encode src)

/-! ## `[]byte(s)` -/

/-- The UTF-8 encoding of one character. -/
def utf8Char (c : Char) : List Nat :=
  let v := c.toNat
  if v < 128 then [v]
  else if v < 2048 then [192 + v / 64, 128 + v % 64]
  else if v < 65536 then [224 + v / 4096, 128 + v / 64 % 64, 128 + v % 64]
  else [240 + v / 262144, 128 + v / 4096 % 64, 128 + v / 64 % 64, 128 + v % 64]

/-- The bytes of a string: `[]byte(s)`. -/
def bytes (s : String) : List Nat := (s.data.map utf8Char).flatten

end Go.crypto

namespace Oss

/-! ## The object-storage client (`aliyun-oss-go-sdk`) as the program sees it -/

/-- The options `main.go` passes to `Bucket.ListObjects`; an absent option is `none`. -/
structure ListOptions where
  Prefix : String
  Delimiter : Option String
  Marker : Option String
deriving DecidableEq, Repr

/-- The fields of `oss.ListObjectsResult` that `main.go` reads; `Objects`
holds the `Key` of every listed object. -/
structure ListObjectsResult where
  CommonPrefixes : List String
  Objects : List String
  IsTruncated : Bool
  NextMarker : String
deriving DecidableEq, Repr

end Oss

namespace DingtalkPicNotify

open Go Go.time Oss

/-- The struct `Config`. -/
structure AliyunOSS where
  Endpoint : String
  AccessKeyID : String
  AccessKeySecret : String
  BucketName : String
deriving DecidableEq, Repr

structure DingtalkBot where
  Webhook : String
  Secret : String
deriving DecidableEq, Repr

structure Config where
  AliyunOSS : AliyunOSS
  DingtalkBot : DingtalkBot
deriving DecidableEq, Repr

/-- What `sendToDingtalk` reads of an `*http.Response`; `Body` is the outcome
of `io.ReadAll(resp.Body)`. -/
structure Response where
  StatusCode : Int
  Status : String
  Body : Except String String

/-- One observable action of the program. -/
inductive Event where
  | ListObjects (o : ListOptions) (ok : Bool)
  | DeleteObjects (keys : List String) (ok : Bool)
  | PutObject (key : String) (file : String) (ok : Bool)
  | Post (url : String) (contentType : String) (body : String) (ok : Bool)
  | Println (line : String)
deriving DecidableEq, Repr

/-- A storage or network request that came back with an error. -/
def Event.failed : Event → Bool
  | .ListObjects _ ok => !ok
  | .DeleteObjects _ ok => !ok
  | .PutObject _ _ ok => !ok
  | .Post _ _ _ ok => !ok
  | .Println _ => false

/-- A storage request (of any kind). -/
def Event.isStorage : Event → Bool
  | .ListObjects _ _ => true
  | .DeleteObjects _ _ => true
  | .PutObject _ _ _ => true
  | _ => false

/-- Everything outside the program: the clock, the file system, the storage
service, the webhook and the library calls whose results the program only
passes on.  `σ` is the state of that outside world; every call may change it. -/
structure World (σ : Type) where
  /-- `time.Now()` -/
  Now : σ → Time × σ
  /-- `oss.New(endpoint, accessKeyID, accessKeySecret)` -/
  New : String → String → String → Except String Unit
  /-- `client.Bucket(bucketName)` -/
  Bucket : String → Except String Unit
  /-- `bucket.ListObjects(options...)` -/
  ListObjects : ListOptions → σ → Except String ListObjectsResult × σ
  /-- `bucket.DeleteObjects(keys)` -/
  DeleteObjects : List String → σ → Except String Unit × σ
  /-- `os.Open(path)`; the handle is the path -/
  Open : String → σ → Except String String × σ
  /-- `bucket.PutObject(objectName, file)` -/
  PutObject : String → String → σ → Except String Unit × σ
  /-- `os.ReadFile(path)` -/
  ReadFile : String → σ → Except String String × σ
  /-- `yaml.Unmarshal(data, &config)` -/
  Unmarshal : String → Except String Config
  /-- `json.Marshal` of the markdown message with the given title and text -/
  Marshal : String → String → Except String String
  /-- `http.Post(url, contentType, body)` -/
  Post : String → String → String → σ → Except String Response × σ

deriving instance DecidableEq for Except

/-- The result of a run: what the function returned, the world afterwards,
and what it did on the way. -/
abbrev Outcome (σ α : Type) := Except String α × σ × List Event

variable {σ : Type}

/-! ## `listAndCleanOldFolders` -/

/-- The date segment of a folder name (lines 156-157). -/
def folderDateStr (pfx : String) : String :=
  TrimSuffix (TrimPrefix pfx "raspi/") "/"

/-- The test `time.Since(folderDate) > 3*24*time.Hour` (line 166), with `now`
the value of `time.Now()`. -/
def olderThanThreeDays (now folderDate : Time) : Bool :=
  decide (now.Sub folderDate > 3 * 24 * Hour)

/-- Lines 167-184: list a folder's objects and batch-delete them. -/
def deleteFolder (W : World σ) (pfx : String) (s : σ) : Outcome σ Unit :=
  let opts : ListOptions := { Prefix := pfx, Delimiter := none, Marker := none }
  match W.ListObjects opts s with
  | (.error err, s) =>
    (.error ("列出文件夹" ++ pfx ++ "内容失败: " ++ err), s, [.ListObjects opts false])
  | (.ok objects, s) =>
    let keys := objects.Objects
    match W.DeleteObjects keys s with
    | (.error err, s) =>
      (.error ("删除文件夹" ++ pfx ++ "失败: " ++ err), s,
        [.ListObjects opts true, .DeleteObjects keys false])
    | (.ok _, s) =>
      (.ok (), s, [.ListObjects opts true, .DeleteObjects keys true,
        .Println ("已删除过期文件夹: " ++ pfx)])

/-- The loop over `lor.CommonPrefixes` (lines 154-186). -/
def cleanFolders (W : World σ) : List String → σ → Outcome σ Unit
  | [], s => (.ok (), s, [])
  | pfx :: rest, s =>
    match Parse (folderDateStr pfx) with
    | none => cleanFolders W rest s
    | some folderDate =>
      let (now, s) := W.Now s
      if olderThanThreeDays now folderDate then
        match deleteFolder W pfx s with
        | (.error err, s, log) => (.error err, s, log)
        | (.ok _, s, log) =>
          let (r, s, log2) := cleanFolders W rest s
          (r, s, log ++ log2)
      else cleanFolders W rest s

/-- The options of the folder listing (line 148). -/
def folderListing (marker : String) : ListOptions :=
  { Prefix := "raspi/", Delimiter := some "/", Marker := some marker }

/-- The paging loop (lines 147-192).  `fuel` bounds the number of pages read;
`none` is a run that has not returned within that bound. -/
def sweepPages (W : World σ) : Nat → String → σ →
    Option (Except String Unit) × σ × List Event
  | 0, _, s => (none, s, [])
  | fuel + 1, marker, s =>
    match W.ListObjects (folderListing marker) s with
    | (.error err, s) =>
      (some (.error ("列出文件夹失败: " ++ err)), s, [.ListObjects (folderListing marker) false])
    | (.ok lor, s) =>
      match cleanFolders W lor.CommonPrefixes s with
      | (.error err, s, log) =>
        (some (.error err), s, .ListObjects (folderListing marker) true :: log)
      | (.ok _, s, log) =>
        if !lor.IsTruncated then
          (some (.ok ()), s, .ListObjects (folderListing marker) true :: log)
        else
          let (r, s, log2) := sweepPages W fuel lor.NextMarker s
          (r, s, .ListObjects (folderListing marker) true :: (log ++ log2))

/-- `listAndCleanOldFolders(config)`. -/
def listAndCleanOldFolders (W : World σ) (fuel : Nat) (config : Config) (s : σ) :
    Option (Except String Unit) × σ × List Event :=
  match W.New config.AliyunOSS.Endpoint config.AliyunOSS.AccessKeyID
      config.AliyunOSS.AccessKeySecret with
  | .error err => (some (.error ("创建OSS客户端失败: " ++ err)), s, [])
  | .ok _ =>
    match W.Bucket config.AliyunOSS.BucketName with
    | .error err => (some (.error ("获取存储空间失败: " ++ err)), s, [])
    | .ok _ => sweepPages W fuel "" s

end DingtalkPicNotify

namespace DingtalkPicNotify

open Go Go.time Go.crypto Oss

variable {σ : Type}

/-! ## `calculateSign` -/

/-- `calculateSign(secret, timestamp)`. -/
def calculateSign (secret : String) (timestamp : Int) : String :=
  let stringToSign := fmtInt timestamp ++ "\n" ++ secret
  let h := Go.crypto.New (bytes secret)
  let h := h.Write (bytes stringToSign)
  EncodeToString h.Sum

/-! ## `uploadToOSS` -/

/-- The object name of line 65 for an upload of `filePath` at `now`. -/
def objectName (now : Time) (filePath : String) : String :=
  let datePath := now.Format20060102
  let millis := Int.tmod (Int.tdiv now.UnixNano 1000000) 1000
  let baseName := Base filePath
  "raspi/" ++ datePath ++ "/" ++ fmtInt millis ++ "_" ++ baseName

/-- `uploadToOSS(config, filePath)`. -/
def uploadToOSS (W : World σ) (config : Config) (filePath : String) (s : σ) :
    Outcome σ String :=
  match W.New config.AliyunOSS.Endpoint config.AliyunOSS.AccessKeyID
      config.AliyunOSS.AccessKeySecret with
  | .error err => (.error ("创建OSS客户端失败: " ++ err), s, [])
  | .ok _ =>
    match W.Bucket config.AliyunOSS.BucketName with
    | .error err => (.error ("获取存储空间失败: " ++ err), s, [])
    | .ok _ =>
      match W.Open filePath s with
      | (.error err, s) => (.error ("打开文件失败: " ++ err), s, [])
      | (.ok file, s) =>
        let (now, s) := W.Now s
        let name := objectName now filePath
        match W.PutObject name file s with
        | (.error err, s) => (.error ("上传文件失败: " ++ err), s, [.PutObject name file false])
        | (.ok _, s) =>
          let url := "https://" ++ config.AliyunOSS.BucketName ++ "."
            ++ config.AliyunOSS.Endpoint ++ "/" ++ name
          (.ok url, s, [.PutObject name file true])

/-! ## `sendToDingtalk` -/

/-- The request URL of lines 80-83. -/
def webhookURL (config : Config) (timestamp : Int) (sign : String) : String :=
  config.DingtalkBot.Webhook ++ "&timestamp=" ++ fmtInt timestamp ++ "&sign=" ++ sign

/-- The markdown text of line 86. -/
def markdownContent (currentTime message : String) : String :=
  "### 树莓派图片上传通知\n**时间**: " ++ currentTime ++ "\n\n![图片预览](" ++ message
    ++ ")\n\n[点击查看原图](" ++ message ++ ")"

/-- `sendToDingtalk(config, message)`. -/
def sendToDingtalk (W : World σ) (config : Config) (message : String) (s : σ) :
    Outcome σ Unit :=
  let (now, s) := W.Now s
  let timestamp := Int.tdiv now.UnixNano 1000000
  let sign := calculateSign config.DingtalkBot.Secret timestamp
  let url := webhookURL config timestamp sign
  let (now2, s) := W.Now s
  let currentTime := now2.FormatChinese
  match W.Marshal "文件上传通知" (markdownContent currentTime message) with
  | .error err => (.error ("JSON编码失败: " ++ err), s, [])
  | .ok msgBytes =>
    match W.Post url "application/json" msgBytes s with
    | (.error err, s) =>
      (.error ("HTTP请求失败: " ++ err), s, [.Post url "application/json" msgBytes false])
    | (.ok resp, s) =>
      if resp.StatusCode ≠ 200 then
        match resp.Body with
        | .error err =>
          (.error ("读取响应失败: " ++ err), s, [.Post url "application/json" msgBytes true])
        | .ok body =>
          (.error ("钉钉API返回错误: " ++ resp.Status ++ ", " ++ body), s,
            [.Post url "application/json" msgBytes true])
      else (.ok (), s, [.Post url "application/json" msgBytes true])

/-! ## `loadConfig` -/

/-- `loadConfig(path)`. -/
def loadConfig (W : World σ) (path : String) (s : σ) : Outcome σ Config :=
  match W.ReadFile path s with
  | (.error err, s) => (.error ("读取配置文件失败: " ++ err), s, [])
  | (.ok data, s) =>
    match W.Unmarshal data with
    | .error err => (.error ("解析YAML失败: " ++ err), s, [])
    | .ok config => (.ok config, s, [])

/-! ## `main` -/

/-- The four functions `main` calls. -/
inductive Step where
  | loadConfig
  | listAndCleanOldFolders
  | uploadToOSS
  | sendToDingtalk
deriving DecidableEq, Repr

/-- The functions `main` calls, each with what it returns in a given world. -/
structure Steps (σ : Type) where
  loadConfig : String → σ → Except String Config × σ
  listAndCleanOldFolders : Config → σ → Except String Unit × σ
  uploadToOSS : Config → String → σ → Except String String × σ
  sendToDingtalk : Config → String → σ → Except String Unit × σ

/-- What a run of `main` shows: the exit code, the functions it called in
order, and the lines it printed. -/
structure Exit (σ : Type) where
  code : Nat
  called : List Step
  stdout : List String
  world : σ

/-- `main()`, with `args` the value of `os.Args` (program name first). -/
def main (P : Steps σ) (args : List String) (s : σ) : Exit σ :=
  if args.length ≠ 2 then
    { code := 1, called := [], stdout := ["用法: ./main <文件路径>"], world := s }
  else
    let filePath := args.getD 1 ""
    match P.loadConfig "config.yaml" s with
    | (.error err, s) =>
      { code := 1, called := [.loadConfig], stdout := ["加载配置失败: " ++ err], world := s }
    | (.ok config, s) =>
      let (swept, s) := P.listAndCleanOldFolders config s
      let out1 :=
        match swept with
        | .error err => ["清理过期文件夹失败: " ++ err]
        | .ok _ => []
      match P.uploadToOSS config filePath s with
      | (.error err, s) =>
        { code := 1, called := [.loadConfig, .listAndCleanOldFolders, .uploadToOSS],
          stdout := out1 ++ ["上传文件失败: " ++ err], world := s }
      | (.ok fileURL, s) =>
        let message := fileURL
        match P.sendToDingtalk config message s with
        | (.error err, s) =>
          { code := 1,
            called := [.loadConfig, .listAndCleanOldFolders, .uploadToOSS, .sendToDingtalk],
            stdout := out1 ++ ["发送钉钉消息失败: " ++ err], world := s }
        | (.ok _, s) =>
          { code := 0,
            called := [.loadConfig, .listAndCleanOldFolders, .uploadToOSS, .sendToDingtalk],
            stdout := out1 ++ ["文件上传并通知成功!"], world := s }

end DingtalkPicNotify

namespace Oss

open Go Go.time DingtalkPicNotify

/-! ## An in-memory bucket

Modelled from the spec: section 6 names the storage protocol the program
relies on ("list-objects-with-delimiter (paginated, common-prefix grouping),
put-object, list-objects-by-prefix, batch-delete-objects — standard S3-style
semantics assumed").  The service itself is not part of the repository; this
is the smallest bucket with those semantics.  It is used for the concrete
runs below, never for the general theorems, which hold for every `World`. -/

/-- The bucket: its object keys, in ascending order. -/
structure Bucket where
  keys : List String
deriving DecidableEq, Repr

/-- The text of `rest` up to and including the first occurrence of `delim`. -/
def uptoDelimiter (delim : List Char) : List Char → Option (List Char)
  | [] => none
  | c :: cs =>
    if delim.isPrefixOf (c :: cs) then some delim
    else (uptoDelimiter delim cs).map (fun r => c :: r)

/-- The entry a key is listed as: itself, or (second component `true`) the
common prefix it is rolled up into. -/
def entryOf (o : ListOptions) (key : String) : String × Bool :=
  match o.Delimiter with
  | none => (key, false)
  | some d =>
    if d = "" then (key, false)
    else
      match uptoDelimiter d.data (key.data.drop o.Prefix.data.length) with
      | some cp => (o.Prefix ++ String.mk cp, true)
      | none => (key, false)

/-- One page of a listing: the keys under the prefix, rolled up at the
delimiter, after the marker, at most `maxKeys` entries.  The keys are in
ascending order, so the keys rolled up into one common prefix are neighbours,
and the roll-up merges equal neighbours. -/
def listPage (maxKeys : Nat) (o : ListOptions) (keys : List String) : ListObjectsResult :=
  let entries :=
    ((keys.filter (fun k => HasPrefix k o.Prefix)).map (entryOf o)).destutter (fun a b => a ≠ b)
  let later := entries.filter (fun e => decide (o.Marker.getD "" < e.1))
  let page := later.take maxKeys
  let truncated := decide (maxKeys < later.length)
  { CommonPrefixes := (page.filter (fun e => e.2)).map (fun e => e.1),
    Objects := (page.filter (fun e => !e.2)).map (fun e => e.1),
    IsTruncated := truncated,
    NextMarker := if truncated then (page.getLast?.map (fun e => e.1)).getD "" else "" }

/-- Insert a key, keeping the keys ascending and distinct. -/
def insertKey (k : String) : List String → List String
  | [] => [k]
  | x :: xs =>
    if k < x then k :: x :: xs
    else if k = x then x :: xs
    else x :: insertKey k xs

/-- The world of a bucket whose listings return at most `maxKeys` entries a
page, at a moment when the clock reads `clock`.  A batch delete removes each
requested key (the keys of a bucket are distinct).  Nothing fails; there is
no network and no configuration file. -/
def bucketWorld (maxKeys : Nat) (clock : Time) : World Bucket where
  Now := fun s => (clock, s)
  New := fun _ _ _ => .ok ()
  Bucket := fun _ => .ok ()
  ListObjects := fun o s => (.ok (listPage maxKeys o s.keys), s)
  DeleteObjects := fun ks s => (.ok (), { keys := s.keys.diff ks })
  Open := fun path s => (.ok path, s)
  PutObject := fun key _ s => (.ok (), { keys := insertKey key s.keys })
  ReadFile := fun _ s => (.error "no such file", s)
  Unmarshal := fun _ => .error "no configuration"
  Marshal := fun _ text => .ok text
  Post := fun _ _ _ s => (.error "no network", s)

/-- The page size of the service when `max-keys` is not given, as here. -/
def defaultMaxKeys : Nat := 100

/-- A bucket with one folder, `raspi/20200101/`, that holds `n` objects
`000_a.jpg`, `001_a.jpg`, ... -/
def crowdedFolder (n : Nat) : Bucket :=
  { keys := (List.range n).map (fun i => "raspi/20200101/" ++ appendInt i 3 ++ "_a.jpg") }

end Oss

namespace DingtalkPicNotify

open Go Go.time Go.crypto Oss

/-! ## Predicates and test worlds used by the theorems -/

/-- Shape of a finished piece of the sweep: either no request failed and no
error is returned, or the trace ends with the one failed request and an error
is returned. -/
def Stops (r : Option (Except String Unit)) (t : List Event) : Prop :=
  ((∀ msg, r ≠ some (.error msg)) ∧ ∀ e ∈ t, e.failed = false) ∨
  (∃ msg good last, r = some (.error msg) ∧ t = good ++ [last] ∧
    (∀ x ∈ good, x.failed = false) ∧ last.failed = true)

/-- S3-style listings: every key a listing returns lies under the prefix that
was asked for, and every common prefix of a delimited listing lies under it
and ends with the delimiter.  (Section 6 of the specification assumes this of
the storage service.) -/
def ListingSound {σ : Type} (W : World σ) : Prop :=
  ∀ (o : ListOptions) (s s1 : σ) (r : ListObjectsResult), W.ListObjects o s = (.ok r, s1) →
    (∀ k ∈ r.Objects, HasPrefix k o.Prefix = true) ∧
    (∀ d, o.Delimiter = some d →
      ∀ p ∈ r.CommonPrefixes, HasPrefix p o.Prefix = true ∧ HasSuffix p d = true)

/-- The keys the run asked the service to delete. -/
def deletedKeys : List Event → List String
  | [] => []
  | .DeleteObjects keys _ :: rest => keys ++ deletedKeys rest
  | _ :: rest => deletedKeys rest

/-- One scripted answer of the storage service. -/
inductive Answer where
  | listing (r : ListObjectsResult)
  | done
  | fail (err : String)
deriving DecidableEq, Repr

/-- A world whose storage answers from a script: the state is the list of
answers still to come, one for each request, and the clock stands at `clock`. -/
def scriptedWorld (clock : Time) : World (List Answer) where
  Now := fun s => (clock, s)
  New := fun _ _ _ => .ok ()
  Bucket := fun _ => .ok ()
  ListObjects := fun _ s =>
    match s with
    | .listing r :: rest => (.ok r, rest)
    | .fail err :: rest => (.error err, rest)
    | _ :: rest => (.error "unexpected request", rest)
    | [] => (.error "end of script", [])
  DeleteObjects := fun _ s =>
    match s with
    | .done :: rest => (.ok (), rest)
    | .fail err :: rest => (.error err, rest)
    | _ :: rest => (.error "unexpected request", rest)
    | [] => (.error "end of script", [])
  Open := fun path s => (.ok path, s)
  PutObject := fun _ _ s =>
    match s with
    | .done :: rest => (.ok (), rest)
    | .fail err :: rest => (.error err, rest)
    | _ :: rest => (.error "unexpected request", rest)
    | [] => (.error "end of script", [])
  ReadFile := fun _ s => (.error "no such file", s)
  Unmarshal := fun _ => .error "no configuration"
  Marshal := fun _ text => .ok text
  Post := fun _ _ _ s => (.error "no network", s)

/-- A configuration for the concrete runs. -/
def sampleConfig : Config :=
  { AliyunOSS := { Endpoint := "oss-cn-hangzhou.aliyuncs.com", AccessKeyID := "id",
                   AccessKeySecret := "key", BucketName := "pics" },
    DingtalkBot := { Webhook := "https://oapi.dingtalk.com/robot/send?access_token=t",
                     Secret := "SECtest" } }

/-- A world whose webhook answers every request with `answer`, and whose clock
stands at `clock`; it has no storage. -/
def webhookWorld (clock : Time) (answer : Except String Response) : World Unit where
  Now := fun s => (clock, s)
  New := fun _ _ _ => .ok ()
  Bucket := fun _ => .ok ()
  ListObjects := fun _ s => (.error "no storage", s)
  DeleteObjects := fun _ s => (.error "no storage", s)
  Open := fun path s => (.ok path, s)
  PutObject := fun _ _ s => (.error "no storage", s)
  ReadFile := fun _ s => (.error "no such file", s)
  Unmarshal := fun _ => .error "no configuration"
  Marshal := fun _ text => .ok text
  Post := fun _ _ _ s => (answer, s)

/-- HMAC over SHA-256 as RFC 2104 defines it:
`H((K0 xor opad) ‖ H((K0 xor ipad) ‖ text))`, where `K0` is the key, hashed
first when longer than a block, then zero-padded to a block. -/
def hmacSHA256 (key text : List Nat) : List Nat :=
  let k := if key.length > 64 then sha256 key else key
  let k0 := k ++ List.replicate (64 - k.length) 0
  sha256 (k0.map (fun b => b ^^^ 92) ++ sha256 (k0.map (fun b => b ^^^ 54) ++ text))

end DingtalkPicNotify

namespace Calendar

open Go.time

/-! ## The proleptic Gregorian calendar, counted day by day

Read from the claims: a date `YYYYMMDD`, the instant at which its day starts
in UTC, and its eight-digit rendering.  Nothing here is taken from the Go
sources; the theorems compare the two. -/

/-- The leap-year rule. -/
def leapYear (y : Nat) : Bool := (y % 4 = 0 ∧ y % 100 ≠ 0) ∨ y % 400 = 0

/-- The number of days of year `y`. -/
def yearLength (y : Nat) : Nat := if leapYear y then 366 else 365

/-- The number of days of month `m` in a leap or a common year. -/
def monthDays (leap : Bool) (m : Nat) : Nat :=
  match m with
  | 2 => if leap then 29 else 28
  | 4 => 30
  | 6 => 30
  | 9 => 30
  | 11 => 30
  | _ => 31

/-- The number of days of month `m` of year `y`. -/
def monthLength (y m : Nat) : Nat := monthDays (leapYear y) m

/-- Days from 1 January of year 0 to 1 January of year `y`. -/
def daysBeforeYear : Nat → Nat
  | 0 => 0
  | y + 1 => daysBeforeYear y + yearLength y

/-- Days of a leap or a common year that lie in the months before month `m`. -/
def daysBeforeMonthOf (leap : Bool) : Nat → Nat
  | 0 => 0
  | 1 => 0
  | m + 1 => daysBeforeMonthOf leap m + monthDays leap m

/-- Days of year `y` that lie in the months before month `m`. -/
def daysBeforeMonth (y m : Nat) : Nat := daysBeforeMonthOf (leapYear y) m

/-- `y`-`m`-`d` is a date of the calendar with a four-digit year. -/
def ValidDate (y m d : Nat) : Prop :=
  y ≤ 9999 ∧ 1 ≤ m ∧ m ≤ 12 ∧ 1 ≤ d ∧ d ≤ monthLength y m

instance (y m d : Nat) : Decidable (ValidDate y m d) := by
  unfold ValidDate; infer_instance

/-- The number of days from 1970-01-01 to `y`-`m`-`d`. -/
def unixDay (y m d : Nat) : Int :=
  ((daysBeforeYear y + daysBeforeMonth y m + (d - 1) : Nat) : Int) - 719528

/-- The instant at which the day `y`-`m`-`d` starts in UTC. -/
def midnightUTC (y m d : Nat) : Time :=
  { unixSec := 86400 * unixDay y m d, nsec := 0, offset := 0 }

/-- The wall clock of `t` (its instant shifted by the offset of its location)
shows the date `y`-`m`-`d`. -/
def OnDate (t : Time) (y m d : Nat) : Prop :=
  ValidDate y m d ∧ 86400 * unixDay y m d ≤ t.unixSec + t.offset ∧
    t.unixSec + t.offset < 86400 * unixDay y m d + 86400

instance (t : Time) (y m d : Nat) : Decidable (OnDate t y m d) := by
  unfold OnDate; infer_instance

/-- The character of a decimal digit. -/
def digitChar (n : Nat) : Char := Char.ofNat (48 + n % 10)

/-- The date written as eight digits, `YYYYMMDD`. -/
def yyyymmdd (y m d : Nat) : String :=
  String.mk [digitChar (y / 1000), digitChar (y / 100), digitChar (y / 10), digitChar y,
             digitChar (m / 10), digitChar m, digitChar (d / 10), digitChar d]

end Calendar

namespace DingtalkPicNotify

variable {σ : Type}

/-- C5. With exactly one argument, `main` exits with code 0 if and only if
loading the configuration, the upload and the notification all succeed,
whatever the sweep returned; the sweep and the upload are attempted whenever
the configuration loaded (a failed sweep stops nothing); the notifier is
called only after a successful upload; with any other number of arguments
`main` exits with code 1 and calls none of the four functions. -/
theorem C5_main_exit_code (P : Steps σ) (args : List String) (s : σ) :
    (args.length = 2 →
      (((main P args s).code = 0 ↔
          ∃ config s1, P.loadConfig "config.yaml" s = (.ok config, s1) ∧
            ∃ url s3, P.uploadToOSS config (args.getD 1 "")
                (P.listAndCleanOldFolders config s1).2 = (.ok url, s3) ∧
              ∃ s4, P.sendToDingtalk config url s3 = (.ok (), s4)) ∧
        ((main P args s).code = 0 ∨ (main P args s).code = 1) ∧
        ((∃ config s1, P.loadConfig "config.yaml" s = (.ok config, s1)) →
          Step.listAndCleanOldFolders ∈ (main P args s).called ∧
          Step.uploadToOSS ∈ (main P args s).called) ∧
        (Step.sendToDingtalk ∈ (main P args s).called →
          ∃ config s1 url s3, P.loadConfig "config.yaml" s = (.ok config, s1) ∧
            P.uploadToOSS config (args.getD 1 "")
              (P.listAndCleanOldFolders config s1).2 = (.ok url, s3)))) ∧
    (args.length ≠ 2 → (main P args s).code = 1 ∧ (main P args s).called = []) := by
  constructor
  · intro h2
    unfold main
    simp only [h2, ne_eq, not_true_eq_false, if_false]
    generalize args.getD 1 "" = filePath
    rcases hl : P.loadConfig "config.yaml" s with ⟨_ | config, s1⟩
    · simp
    · rcases hu : P.uploadToOSS config filePath (P.listAndCleanOldFolders config s1).2
        with ⟨_ | url, s3⟩
      · simp [hu]
      · rcases hn : P.sendToDingtalk config url s3 with ⟨_ | u, s4⟩
        · simp [hu, hn]
          exact ⟨config, s1, ⟨rfl, rfl⟩, url, s3, hu⟩
        · simp [hu, hn]
          exact ⟨⟨config, s1, ⟨rfl, rfl⟩, url, s3, hu, s4, hn⟩,
            config, s1, ⟨rfl, rfl⟩, url, s3, hu⟩
  · intro h2
    simp [main, h2]

end DingtalkPicNotify

namespace DingtalkPicNotify

open Go Go.time Go.crypto Oss

variable {σ : Type}

/-- A failed event of a trace whose other events all succeeded is its last one. -/
theorem failed_is_last {good : List Event} {last : Event}
    (hg : ∀ x ∈ good, x.failed = false) {pre post : List Event} {e : Event}
    (h : pre ++ e :: post = good ++ [last]) (he : e.failed = true) : post = [] := by
  rcases List.eq_nil_or_concat post with hp | ⟨post', z, hp⟩
  · exact hp
  · exfalso
    subst hp
    have h' : (pre ++ e :: post') ++ [z] = good ++ [last] := by simpa using h
    have hgood := (List.append_inj' h' rfl).1
    have : e ∈ good := by rw [← hgood]; simp
    rw [hg e this] at he
    exact Bool.noConfusion he

theorem deleteFolder_stops (W : World σ) (pfx : String) (s : σ) :
    Stops (some (deleteFolder W pfx s).1) (deleteFolder W pfx s).2.2 := by
  unfold deleteFolder
  dsimp only
  split
  · right
    exact ⟨_, [], _, rfl, rfl, by simp, rfl⟩
  · split
    · right
      refine ⟨_, [_], _, rfl, rfl, ?_, rfl⟩
      simp [Event.failed]
    · left
      simp [Event.failed]

theorem cleanFolders_stops (W : World σ) (l : List String) (s : σ) :
    Stops (some (cleanFolders W l s).1) (cleanFolders W l s).2.2 := by
  induction l generalizing s with
  | nil => left; simp [cleanFolders]
  | cons pfx rest ih =>
    unfold cleanFolders
    split
    · exact ih s
    · split
      rename_i now s1 _
      split
      · have hd := deleteFolder_stops W pfx s1
        split
        · rename_i heq
          rw [heq] at hd
          exact hd
        · rename_i u s2 log heq
          rw [heq] at hd
          have hlog : ∀ e ∈ log, e.failed = false := by
            rcases hd with ⟨_, h⟩ | ⟨msg, _, _, h, _⟩
            · exact h
            · simp at h
          rcases ih s2 with ⟨hne, hc⟩ | ⟨msg, good, last, hr, ht, hg, hl⟩
          · left
            refine ⟨hne, ?_⟩
            intro e he
            rcases List.mem_append.1 he with h | h
            · exact hlog e h
            · exact hc e h
          · right
            refine ⟨msg, log ++ good, last, hr, ?_, ?_, hl⟩
            · simp only [ht, List.append_assoc]
            · intro x hx
              rcases List.mem_append.1 hx with h | h
              · exact hlog x h
              · exact hg x h
      · exact ih s1

theorem sweepPages_stops (W : World σ) (fuel : Nat) (marker : String) (s : σ) :
    Stops (sweepPages W fuel marker s).1 (sweepPages W fuel marker s).2.2 := by
  induction fuel generalizing marker s with
  | zero => left; simp [sweepPages]
  | succ fuel ih =>
    unfold sweepPages
    split
    · right
      exact ⟨_, [], _, rfl, rfl, by simp, rfl⟩
    · rename_i lor s1 _
      have hc := cleanFolders_stops W lor.CommonPrefixes s1
      split
      · rename_i heq
        rw [heq] at hc
        rcases hc with ⟨hne, _⟩ | ⟨msg, good, last, hr, ht, hg, hlast⟩
        · exact absurd rfl (hne _)
        · right
          refine ⟨_, Event.ListObjects (folderListing marker) true :: good, last, rfl, ?_, ?_,
            hlast⟩
          · simp only at ht
            simp [ht]
          · intro x hx
            rcases List.mem_cons.1 hx with h | h
            · subst h; rfl
            · exact hg x h
      · rename_i u s2 log heq
        rw [heq] at hc
        have hlog : ∀ e ∈ log, e.failed = false := by
          rcases hc with ⟨_, h⟩ | ⟨msg, _, _, h, _⟩
          · exact h
          · simp at h
        split
        · left
          refine ⟨by simp, ?_⟩
          intro e he
          rcases List.mem_cons.1 he with h | h
          · subst h; rfl
          · exact hlog e h
        · rcases ih lor.NextMarker s2 with ⟨hne, hcn⟩ | ⟨msg, good, last, hr, ht, hg, hlast⟩
          · left
            refine ⟨hne, ?_⟩
            intro e he
            rcases List.mem_cons.1 he with h | h
            · subst h; rfl
            · rcases List.mem_append.1 h with h | h
              · exact hlog e h
              · exact hcn e h
          · right
            refine ⟨msg, Event.ListObjects (folderListing marker) true :: (log ++ good), last,
              hr, ?_, ?_, hlast⟩
            · simp [ht]
            · intro x hx
              rcases List.mem_cons.1 hx with h | h
              · subst h; rfl
              · rcases List.mem_append.1 h with h | h
                · exact hlog x h
                · exact hg x h

/-- C4. In every world and for every bound on the pages read: a storage
request of the sweep that fails (a folder listing of any page, a content
listing or a batch delete) is the last thing the sweep does (nothing is
requested or printed after it) and the sweep has returned an error. -/
theorem C4_sweep_aborts_on_first_failure (W : World σ) (fuel : Nat) (config : Config) (s : σ)
    (pre post : List Event) (e : Event)
    (htrace : (listAndCleanOldFolders W fuel config s).2.2 = pre ++ e :: post)
    (hfail : e.failed = true) :
    post = [] ∧ ∃ msg, (listAndCleanOldFolders W fuel config s).1 = some (.error msg) := by
  unfold listAndCleanOldFolders at htrace ⊢
  rcases hn : W.New config.AliyunOSS.Endpoint config.AliyunOSS.AccessKeyID
      config.AliyunOSS.AccessKeySecret with _ | u
  · rw [hn] at htrace
    simp at htrace
  · rw [hn] at htrace
    simp only at htrace ⊢
    rcases hb : W.Bucket config.AliyunOSS.BucketName with _ | u
    · rw [hb] at htrace
      simp at htrace
    · rw [hb] at htrace
      simp only at htrace ⊢
      rcases sweepPages_stops W fuel "" s with ⟨_, hc⟩ | ⟨msg, good, last, hr, ht, hg, _⟩
      · have : e ∈ (sweepPages W fuel "" s).2.2 := by rw [htrace]; simp
        rw [hc e this] at hfail
        exact Bool.noConfusion hfail
      · rw [ht] at htrace
        exact ⟨failed_is_last hg htrace.symm hfail, msg, hr⟩

end DingtalkPicNotify

namespace DingtalkPicNotify

open Go Go.time Oss

/-- C4, at a concrete run: two folders are listed, the first is expired, its
content listing succeeds and its batch delete fails; the sweep stops there. -/
theorem C4_sweep_aborts_witness :
    (listAndCleanOldFolders (scriptedWorld ⟨1717459201, 0, 0⟩) 3 sampleConfig
        [.listing ⟨["raspi/20200101/", "raspi/20200102/"], [], true, "raspi/20200102/"⟩,
         .listing ⟨[], ["raspi/20200101/1_a.jpg"], false, ""⟩,
         .fail "boom"]).2.2
      = [Event.ListObjects (folderListing "") true,
         Event.ListObjects ⟨"raspi/20200101/", none, none⟩ true]
        ++ Event.DeleteObjects ["raspi/20200101/1_a.jpg"] false :: [] ∧
    (([] : List Event) = [] ∧
      ∃ msg, (listAndCleanOldFolders (scriptedWorld ⟨1717459201, 0, 0⟩) 3 sampleConfig
        [.listing ⟨["raspi/20200101/", "raspi/20200102/"], [], true, "raspi/20200102/"⟩,
         .listing ⟨[], ["raspi/20200101/1_a.jpg"], false, ""⟩,
         .fail "boom"]).1 = some (.error msg)) :=
  ⟨by decide!,
   C4_sweep_aborts_on_first_failure (scriptedWorld ⟨1717459201, 0, 0⟩) 3 sampleConfig
     [.listing ⟨["raspi/20200101/", "raspi/20200102/"], [], true, "raspi/20200102/"⟩,
      .listing ⟨[], ["raspi/20200101/1_a.jpg"], false, ""⟩,
      .fail "boom"]
     [Event.ListObjects (folderListing "") true,
      Event.ListObjects ⟨"raspi/20200101/", none, none⟩ true]
     [] (Event.DeleteObjects ["raspi/20200101/1_a.jpg"] false)
     (by decide!) rfl⟩

end DingtalkPicNotify

namespace DingtalkPicNotify

open Go Go.time Go.crypto Oss

variable {σ : Type}

/-- RFC 4231, test case 2: HMAC-SHA-256 with key "Jefe". -/
theorem hmacSHA256_rfc4231_case2 :
    hmacSHA256 (bytes "Jefe") (bytes "what do ya want for nothing?") =
      [91, 220, 193, 70, 191, 96, 117, 78, 106, 4, 36, 38, 8, 149, 117, 199,
       90, 0, 63, 8, 157, 39, 57, 131, 157, 236, 88, 185, 100, 236, 56, 67] := by
  decide!

/-- RFC 4648, section 10: the encodings of "foob" and "foobar". -/
theorem base64_rfc4648 :
    EncodeToString (bytes "foob") = "Zm9vYg==" ∧ EncodeToString (bytes "foobar") = "Zm9vYmFy" := by
  decide!

/-- The trace of `sendToDingtalk` holds at most one request, and that request
goes to the URL built from the first reading of the clock. -/
theorem sendToDingtalk_url (W : World σ) (config : Config) (message : String) (s : σ)
    (e : Event) (he : e ∈ (sendToDingtalk W config message s).2.2) :
    ∃ body ok, e = Event.Post
      (webhookURL config (Int.tdiv (W.Now s).1.UnixNano 1000000)
        (calculateSign config.DingtalkBot.Secret (Int.tdiv (W.Now s).1.UnixNano 1000000)))
      "application/json" body ok := by
  unfold sendToDingtalk at he
  revert he
  split
  rename_i now s1 hnow
  split
  rename_i now2 s2 _
  simp only [hnow]
  split
  · simp
  · split
    · intro he
      simp only [List.mem_singleton] at he
      exact ⟨_, _, he⟩
    · split
      · split
        · intro he
          simp only [List.mem_singleton] at he
          exact ⟨_, _, he⟩
        · intro he
          simp only [List.mem_singleton] at he
          exact ⟨_, _, he⟩
      · intro he
        simp only [List.mem_singleton] at he
        exact ⟨_, _, he⟩

/-- When the message encodes, `sendToDingtalk` posts exactly once, to the
signed URL. -/
theorem sendToDingtalk_posts_once (W : World σ) (config : Config) (message : String) (s : σ)
    (hm : ∀ title text, ∃ b, W.Marshal title text = .ok b) :
    ∃ body ok, (sendToDingtalk W config message s).2.2 =
      [Event.Post
        (webhookURL config (Int.tdiv (W.Now s).1.UnixNano 1000000)
          (calculateSign config.DingtalkBot.Secret (Int.tdiv (W.Now s).1.UnixNano 1000000)))
        "application/json" body ok] := by
  unfold sendToDingtalk
  split
  rename_i now s1 hnow
  split
  rename_i now2 s2 _
  simp only [hnow]
  split
  · rename_i err heq
    obtain ⟨b, hb⟩ := hm "文件上传通知" (markdownContent now2.FormatChinese message)
    rw [hb] at heq
    cases heq
  · split
    · exact ⟨_, _, rfl⟩
    · split
      · split
        · exact ⟨_, _, rfl⟩
        · exact ⟨_, _, rfl⟩
      · exact ⟨_, _, rfl⟩

/-- C8. `calculateSign(secret, timestamp)` is the padded standard base64 text
of HMAC-SHA256 with key `secret` over the decimal timestamp, a newline and
`secret`; equal arguments give equal signatures (on a known vector:
`SECtest` at 1700000000000 ms); and the request `sendToDingtalk` posts goes to
`{webhook}&timestamp={t}&sign={calculateSign(secret, t)}` with one and the same
millisecond timestamp `t`, the first reading of the clock (and it posts
exactly once when the message encodes). -/
theorem C8_calculateSign_is_base64_hmac_sha256 :
    (∀ (secret : String) (timestamp : Int),
      calculateSign secret timestamp =
        EncodeToString (hmacSHA256 (bytes secret)
          (bytes (fmtInt timestamp ++ "\n" ++ secret)))) ∧
    (∀ (s1 s2 : String) (t1 t2 : Int), s1 = s2 → t1 = t2 →
      calculateSign s1 t1 = calculateSign s2 t2) ∧
    calculateSign "SECtest" 1700000000000 = "aZLLrriXgn05YbwaGR7knYsLeJADjr9NwLaNNKpxh4g=" ∧
    (∀ (σ : Type) (W : World σ) (config : Config) (message : String) (s : σ) (e : Event),
      e ∈ (sendToDingtalk W config message s).2.2 →
      ∃ t body ok, t = Int.tdiv (W.Now s).1.UnixNano 1000000 ∧
        e = Event.Post
          (config.DingtalkBot.Webhook ++ "&timestamp=" ++ fmtInt t ++ "&sign="
            ++ calculateSign config.DingtalkBot.Secret t)
          "application/json" body ok) ∧
    (∀ (σ : Type) (W : World σ) (config : Config) (message : String) (s : σ),
      (∀ title text, ∃ b, W.Marshal title text = .ok b) →
      ∃ t body ok, t = Int.tdiv (W.Now s).1.UnixNano 1000000 ∧
        (sendToDingtalk W config message s).2.2 = [Event.Post
          (config.DingtalkBot.Webhook ++ "&timestamp=" ++ fmtInt t ++ "&sign="
            ++ calculateSign config.DingtalkBot.Secret t)
          "application/json" body ok]) := by
  refine ⟨?_, ?_, ?_, ?_, ?_⟩
  · intro secret timestamp
    simp only [calculateSign, hmacSHA256, Go.crypto.New, HMAC.Write, HMAC.Sum, blockSize]
  · intro s1 s2 t1 t2 h1 h2
    rw [h1, h2]
  · decide!
  · intro σ W config message s e he
    obtain ⟨body, ok, h⟩ := sendToDingtalk_url W config message s e he
    exact ⟨_, body, ok, rfl, h⟩
  · intro σ W config message s hm
    obtain ⟨body, ok, h⟩ := sendToDingtalk_posts_once W config message s hm
    exact ⟨_, body, ok, rfl, h⟩

end DingtalkPicNotify

namespace DingtalkPicNotify

open Go Go.time Go.crypto Oss

variable {σ : Type}

/-- C9 (amended). Let the message encode and the webhook answer `resp` to
whatever is posted.  If the status code of `resp` is not 200 and its body can
be read, `sendToDingtalk` returns an error whose message contains the status
line and the body; if the body cannot be read, it returns the read error
instead; if the status code is 200, it returns no error. -/
theorem C9_non200_error_has_status_and_body (W : World σ) (config : Config)
    (message : String) (s : σ) (resp : Response)
    (hm : ∀ title text, ∃ b, W.Marshal title text = .ok b)
    (hp : ∀ url ct body st, (W.Post url ct body st).1 = .ok resp) :
    (resp.StatusCode ≠ 200 → ∀ body, resp.Body = .ok body →
      ∃ msg, (sendToDingtalk W config message s).1 = .error msg ∧
        resp.Status.data <:+: msg.data ∧ body.data <:+: msg.data) ∧
    (resp.StatusCode ≠ 200 → ∀ err, resp.Body = .error err →
      (sendToDingtalk W config message s).1 = .error ("读取响应失败: " ++ err)) ∧
    (resp.StatusCode = 200 → (sendToDingtalk W config message s).1 = .ok ()) := by
  have key : (sendToDingtalk W config message s).1 =
      if resp.StatusCode ≠ 200 then
        match resp.Body with
        | .error err => .error ("读取响应失败: " ++ err)
        | .ok body => .error ("钉钉API返回错误: " ++ resp.Status ++ ", " ++ body)
      else .ok () := by
    rcases hnow : W.Now s with ⟨now, s1⟩
    rcases hnow2 : W.Now s1 with ⟨now2, s2⟩
    obtain ⟨b, hb⟩ := hm "文件上传通知" (markdownContent now2.FormatChinese message)
    rcases hP : W.Post (webhookURL config (Int.tdiv now.UnixNano 1000000)
        (calculateSign config.DingtalkBot.Secret (Int.tdiv now.UnixNano 1000000)))
        "application/json" b s2 with ⟨r, s3⟩
    have hr : r = .ok resp := by
      have h1 := hp (webhookURL config (Int.tdiv now.UnixNano 1000000)
        (calculateSign config.DingtalkBot.Secret (Int.tdiv now.UnixNano 1000000)))
        "application/json" b s2
      rw [hP] at h1
      exact h1
    subst hr
    simp only [sendToDingtalk, hnow, hnow2, hb, hP]
    by_cases hc : resp.StatusCode = 200
    · simp [hc]
    · simp only [ne_eq, hc, not_false_eq_true, if_true]
      cases resp.Body <;> rfl
  refine ⟨?_, ?_, ?_⟩
  · intro hne body hb
    refine ⟨"钉钉API返回错误: " ++ resp.Status ++ ", " ++ body, ?_, ?_, ?_⟩
    · rw [key]; simp [hne, hb]
    · refine ⟨"钉钉API返回错误: ".data, (", " ++ body).data, ?_⟩
      simp [String.data_append]
    · refine ⟨("钉钉API返回错误: " ++ resp.Status ++ ", ").data, [], ?_⟩
      simp [String.data_append]
  · intro hne err hb
    rw [key]; simp [hne, hb]
  · intro h200
    rw [key]; simp [h200]

/-- C9, at a concrete answer: status 404 with a readable body. -/
theorem C9_non200_witness :
    (∀ title text, ∃ b, (webhookWorld ⟨1717243200, 0, 28800⟩
        (.ok ⟨404, "404 Not Found", .ok "token is not exist"⟩)).Marshal title text = .ok b) ∧
    ∃ msg, (sendToDingtalk (webhookWorld ⟨1717243200, 0, 28800⟩
          (.ok ⟨404, "404 Not Found", .ok "token is not exist"⟩)) sampleConfig "u" ()).1
        = .error msg ∧
      "404 Not Found".data <:+: msg.data ∧ "token is not exist".data <:+: msg.data :=
  ⟨fun _ text => ⟨text, rfl⟩,
   (C9_non200_error_has_status_and_body
      (webhookWorld ⟨1717243200, 0, 28800⟩ (.ok ⟨404, "404 Not Found", .ok "token is not exist"⟩))
      sampleConfig "u" () ⟨404, "404 Not Found", .ok "token is not exist"⟩
      (fun _ text => ⟨text, rfl⟩) (fun _ _ _ _ => rfl)).1 (by decide) _ rfl⟩

/-- C9 as stated fails: a response with status 500 whose body cannot be read
gives an error that names neither the status nor any body. -/
theorem C9_counterexample_unreadable_body :
    (sendToDingtalk (webhookWorld ⟨1717243200, 0, 28800⟩
        (.ok ⟨500, "500 Internal Server Error", .error "unexpected EOF"⟩)) sampleConfig "u" ()).1
      = .error "读取响应失败: unexpected EOF" ∧
    ¬ ("500 Internal Server Error".data <:+: "读取响应失败: unexpected EOF".data) := by
  constructor
  · rfl
  · decide!

end DingtalkPicNotify

namespace Go.time

theorem tdiv_tmod_facts (d : Int) :
    1000000000 * Int.tdiv d 1000000000 + Int.tmod d 1000000000 = d ∧
    (0 ≤ d → 0 ≤ Int.tmod d 1000000000 ∧ Int.tmod d 1000000000 < 1000000000) ∧
    (d < 0 → -1000000000 < Int.tmod d 1000000000 ∧ Int.tmod d 1000000000 ≤ 0) := by
  refine ⟨Int.tdiv_add_tmod d 1000000000, ?_, ?_⟩
  · intro h
    exact ⟨Int.tmod_nonneg _ h, Int.tmod_lt_of_pos _ (by decide)⟩
  · intro h
    cases d with
    | ofNat n => exact absurd h (by simp)
    | negSucc m =>
      have h1 : Int.tmod (Int.negSucc m) 1000000000 = -((m.succ % 1000000000 : Nat) : Int) := rfl
      have h2 := Nat.mod_lt m.succ (show 1000000000 > 0 by decide)
      rw [h1]
      omega

/-- `Time.Add` adds exactly `d` nanoseconds and keeps the nanosecond field in range. -/
theorem Add_nanos (t : Time) (d : Int) (h0 : 0 ≤ t.nsec) (h1 : t.nsec < 1000000000) :
    (t.Add d).nanos = t.nanos + d ∧ 0 ≤ (t.Add d).nsec ∧ (t.Add d).nsec < 1000000000 := by
  obtain ⟨e1, e2, e3⟩ := tdiv_tmod_facts d
  unfold Time.Add Time.nanos
  rcases Int.lt_or_le d 0 with hd | hd
  · have := e3 hd
    dsimp only
    split_ifs <;> simp only <;> omega
  · have := e2 hd
    dsimp only
    split_ifs <;> simp only <;> omega

theorem wrapInt64_wrap_add (a b : Int) : wrapInt64 (wrapInt64 a + b) = wrapInt64 (a + b) := by
  unfold wrapInt64
  omega

theorem wrapInt64_of_range (x : Int) (h0 : -9223372036854775808 ≤ x)
    (h1 : x ≤ 9223372036854775807) : wrapInt64 x = x := by
  unfold wrapInt64
  omega

theorem wrapInt64_ne_of_out (x : Int)
    (h : x < -9223372036854775808 ∨ 9223372036854775807 < x) : wrapInt64 x ≠ x := by
  unfold wrapInt64
  omega

/-- `Time.Sub` is the difference of the two instants, cut to the range of a
`Duration`. -/
theorem Sub_eq (t u : Time) (ht0 : 0 ≤ t.nsec) (ht1 : t.nsec < 1000000000)
    (hu0 : 0 ≤ u.nsec) (hu1 : u.nsec < 1000000000) :
    t.Sub u =
      if t.nanos - u.nanos < -9223372036854775808 then -9223372036854775808
      else if 9223372036854775807 < t.nanos - u.nanos then 9223372036854775807
      else t.nanos - u.nanos := by
  have hD : (t.unixSec - u.unixSec) * 1000000000 + (t.nsec - u.nsec) = t.nanos - u.nanos := by
    unfold Time.nanos; omega
  have hSub : t.Sub u =
      if (u.Add (wrapInt64 (t.nanos - u.nanos))).Equal t then wrapInt64 (t.nanos - u.nanos)
      else if t.Before u then -9223372036854775808 else 9223372036854775807 := by
    unfold Time.Sub
    simp only [wrapInt64_wrap_add, hD]
    rfl
  rw [hSub]
  have htn : t.nanos = t.unixSec * 1000000000 + t.nsec := rfl
  have hun : u.nanos = u.unixSec * 1000000000 + u.nsec := rfl
  generalize hDd : t.nanos - u.nanos = D at *
  generalize hw : wrapInt64 D = w at *
  obtain ⟨ha, hb0, hb1⟩ := Add_nanos u w hu0 hu1
  generalize hA : u.Add w = A at *
  have hAn : A.nanos = A.unixSec * 1000000000 + A.nsec := rfl
  have heq : A.Equal t = true ↔ w = D := by
    unfold Time.Equal
    simp only [Bool.and_eq_true, beq_iff_eq]
    constructor
    · rintro ⟨h1, h2⟩; omega
    · intro h; omega
  have hbef : t.Before u = true ↔ D < 0 := by
    unfold Time.Before
    simp only [Bool.or_eq_true, Bool.and_eq_true, decide_eq_true_eq, beq_iff_eq]
    omega
  by_cases hlo : D < -9223372036854775808
  · have hne : w ≠ D := hw ▸ wrapInt64_ne_of_out D (Or.inl hlo)
    have h1 : ¬ (A.Equal t = true) := fun h => hne (heq.1 h)
    have h2 : t.Before u = true := hbef.2 (by omega)
    simp [h1, h2, hlo]
  · by_cases hhi : 9223372036854775807 < D
    · have hne : w ≠ D := hw ▸ wrapInt64_ne_of_out D (Or.inr hhi)
      have h1 : ¬ (A.Equal t = true) := fun h => hne (heq.1 h)
      have h2 : ¬ (t.Before u = true) := fun h => by have := hbef.1 h; omega
      simp [h1, h2, hlo, hhi]
    · have hwD : w = D := hw ▸ wrapInt64_of_range D (by omega) (by omega)
      have h1 : A.Equal t = true := heq.2 hwD
      simp [h1, hlo, hhi, hwD]

end Go.time

namespace Calendar

open Go Go.time

theorem yearLength_eq (y : Nat) :
    yearLength y = if (y % 4 = 0 ∧ y % 100 ≠ 0) ∨ y % 400 = 0 then 366 else 365 := by
  unfold yearLength leapYear
  simp

theorem daysBeforeYear_closed (y : Nat) :
    daysBeforeYear y + (y + 99) / 100 = 365 * y + (y + 3) / 4 + (y + 399) / 400 := by
  induction y with
  | zero => rfl
  | succ y ih =>
    unfold daysBeforeYear
    rw [yearLength_eq]
    split_ifs <;> omega

theorem daysBeforeYear_1970 : daysBeforeYear 1970 = 719528 := by
  have := daysBeforeYear_closed 1970
  omega

theorem isLeap_eq (y : Nat) : isLeap (y : Int) = leapYear y := by
  unfold isLeap leapYear
  rw [Bool.eq_iff_iff]
  simp only [Bool.and_eq_true, Bool.or_eq_true, beq_iff_eq, bne_iff_ne, decide_eq_true_eq]
  omega

theorem daysSinceEpoch_arith (Y n1 n2 n3 : Int) (y D : Nat) (hy : y ≤ 9999)
    (hY : (y : Int) + 292277022399 = Y) (hn1 : Y / 400 = n1)
    (hn2 : (Y - 400 * n1) / 100 = n2) (hn3 : (Y - 400 * n1 - 100 * n2) / 4 = n3)
    (hc : D + (y + 99) / 100 = 365 * y + (y + 3) / 4 + (y + 399) / 400) :
    ((365 * 400 + 97) * n1 + ((365 * 100 + 24) * n2) + ((365 * 4 + 1) * n3)
      + 365 * (Y - 400 * n1 - 100 * n2 - 4 * n3)) % 2 ^ 64 = (D : Int) + 106751990353566 := by
  have e1 : ((y + 399) / 400 : Nat) = n1 - 730692555 := by omega
  have e2 : ((y + 99) / 100 : Nat) = 4 * (n1 - 730692555) - 3 + n2 := by omega
  have e3 : ((y + 3) / 4 : Nat) = 100 * (n1 - 730692555) - 99 + 25 * n2 + n3 := by omega
  omega

theorem daysSinceEpoch_eq (y : Nat) (hy : y ≤ 9999) :
    daysSinceEpoch (y : Int) = (daysBeforeYear y : Int) + 106751990353566 := by
  have hw : wrapUint64 ((y : Int) - absoluteZeroYear) = (y : Int) + 292277022399 := by
    unfold wrapUint64 absoluteZeroYear; omega
  have h := daysSinceEpoch_arith _ _ _ _ y (daysBeforeYear y) hy rfl rfl rfl rfl
    (daysBeforeYear_closed y)
  unfold daysSinceEpoch
  simp only [hw]
  exact h

end Calendar

namespace Calendar

open Go Go.time

theorem epoch_constants :
    absoluteToInternal = -9223371966579724800 ∧ internalToUnix = -62135596800 ∧
    unixToInternal = 62135596800 ∧ internalToAbsolute = 9223371966579724800 := by
  decide

theorem daysBefore_month (y m : Nat) (h1 : 1 ≤ m) (h12 : m ≤ 12) :
    daysBefore.getD (m - 1) 0 + (if leapYear y = true ∧ 3 ≤ m then 1 else 0)
      = (daysBeforeMonth y m : Int) := by
  interval_cases m <;> cases h : leapYear y <;>
    simp [daysBeforeMonth, daysBeforeMonthOf, monthLength, monthDays, h, daysBefore]

theorem monthLength_le (y m : Nat) : monthLength y m ≤ 31 := by
  unfold monthLength monthDays
  split <;> try split
  all_goals omega

theorem daysBeforeMonth_le (y m : Nat) (h12 : m ≤ 12) : daysBeforeMonth y m ≤ 335 := by
  interval_cases m <;> cases h : leapYear y <;>
    simp [daysBeforeMonth, daysBeforeMonthOf, monthLength, monthDays, h]

theorem Date_arith (D M d : Nat) (x : Int) (hD : D ≤ 3652425) (hM : M ≤ 335) (hd1 : 1 ≤ d)
    (hd : d ≤ 31) (hx : x = (D : Int) + 106751990353566 + M) :
    wrapInt64 (wrapInt64 (wrapUint64 (wrapUint64 (x + ((d : Int) - 1)) * 86400))
      + (-9223371966579724800 + -62135596800))
      = 86400 * (((D + M + (d - 1) : Nat) : Int) - 719528) := by
  unfold wrapInt64 wrapUint64
  omega

/-- `time.Date` on a valid date is the instant at which that day starts in UTC,
counted day by day from 1970-01-01. -/
theorem Date_eq_midnightUTC (y m d : Nat) (hv : ValidDate y m d) :
    Date (y : Int) (m : Int) (d : Int) = midnightUTC y m d := by
  obtain ⟨hy, hm1, hm12, hd1, hd⟩ := hv
  have hd31 : d ≤ 31 := le_trans hd (monthLength_le y m)
  have hD : daysBeforeYear y ≤ 3652425 := by
    have := daysBeforeYear_closed y
    omega
  have hM := daysBeforeMonth_le y m hm12
  obtain ⟨c1, c2, _, _⟩ := epoch_constants
  have hx : (if (isLeap (y : Int) && decide ((m : Int) ≥ 3)) = true
        then daysSinceEpoch (y : Int) + daysBefore.getD ((m : Int).toNat - 1) 0 + 1
        else daysSinceEpoch (y : Int) + daysBefore.getD ((m : Int).toNat - 1) 0)
      = (daysBeforeYear y : Int) + 106751990353566 + daysBeforeMonth y m := by
    rw [daysSinceEpoch_eq y hy, isLeap_eq, ← daysBefore_month y m hm1 hm12]
    simp only [Int.toNat_ofNat]
    by_cases hl : leapYear y = true <;> by_cases h3 : 3 ≤ m <;> simp [hl, h3] <;> omega
  unfold Date midnightUTC unixDay
  simp only [hx, c1, c2, secondsPerDay]
  rw [Date_arith (daysBeforeYear y) (daysBeforeMonth y m) d _ hD hM hd1 hd31 rfl]

end Calendar

namespace Calendar

open Go Go.time

/-- The digit test of `time.Parse`, on one character. -/
theorem isDig_iff (c : Char) :
    (decide ('0' ≤ c) && decide (c ≤ '9')) = true ↔ 48 ≤ c.toNat ∧ c.toNat ≤ 57 := by
  simp only [Bool.and_eq_true, decide_eq_true_eq]
  exact Iff.rfl

theorem digitChar_toNat (n : Nat) : (digitChar n).toNat = 48 + n % 10 := by
  have h : n % 10 < 10 := Nat.mod_lt _ (by decide)
  unfold digitChar
  generalize n % 10 = k at h
  interval_cases k <;> rfl

theorem digitChar_isDig (n : Nat) :
    (decide ('0' ≤ digitChar n) && decide (digitChar n ≤ '9')) = true := by
  rw [isDig_iff, digitChar_toNat]
  omega

theorem eq_digitChar (c : Char) (h : 48 ≤ c.toNat ∧ c.toNat ≤ 57) :
    c = digitChar (c.toNat - 48) := by
  have h1 : (c.toNat - 48) % 10 = c.toNat - 48 := Nat.mod_eq_of_lt (by omega)
  unfold digitChar
  rw [h1, show 48 + (c.toNat - 48) = c.toNat by omega]
  exact (Char.ofNat_toNat c).symm

end Calendar

namespace Calendar

open Go Go.time

theorem leadingInt_digitChar (acc n : Nat) (cs : List Char) :
    leadingInt acc (digitChar n :: cs) = leadingInt (acc * 10 + n % 10) cs := by
  rw [leadingInt, digitChar_isDig, digitChar_toNat]
  simp

theorem leadingInt_nil (acc : Nat) : leadingInt acc [] = (acc, []) := rfl

theorem atoi_of_digit (a : Char) (rest : List Char) (ha : 48 ≤ a.toNat ∧ a.toNat ≤ 57) :
    atoi (a :: rest) =
      match leadingInt 0 (a :: rest) with
      | (q, []) => some (q : Int)
      | (_, _ :: _) => none := by
  have h1 : a ≠ '-' := fun h => absurd (h ▸ ha) (by decide)
  have h2 : a ≠ '+' := fun h => absurd (h ▸ ha) (by decide)
  unfold atoi
  simp [h1, h2]

theorem getnum_digitChar (p q : Nat) (r : List Char) :
    getnum (digitChar p :: digitChar q :: r) true = some (((p % 10 * 10 + q % 10 : Nat) : Int), r) := by
  unfold getnum isDigit
  simp [digitChar_isDig, digitChar_toNat]

theorem daysIn_eq (y m : Nat) (h1 : 1 ≤ m) (h12 : m ≤ 12) :
    daysIn (m : Int) (y : Int) = monthLength y m := by
  unfold daysIn
  rw [isLeap_eq]
  interval_cases m <;> cases h : leapYear y <;> simp [monthLength, monthDays, h, daysBefore]

/-- `time.Parse` on eight digits: the start of that day when they name a date
of the calendar, an error otherwise. -/
theorem Parse_digits (y m d : Nat) (hy : y ≤ 9999) (hm : m ≤ 99) (hd : d ≤ 99) :
    Parse (yyyymmdd y m d) =
      if 1 ≤ m ∧ m ≤ 12 ∧ 1 ≤ d ∧ d ≤ monthLength y m
      then some (Date (y : Int) (m : Int) (d : Int)) else none := by
  have hyear : ((((0 * 10 + y / 1000 % 10) * 10 + y / 100 % 10) * 10 + y / 10 % 10) * 10 + y % 10)
      = y := by omega
  have hmonth : m / 10 % 10 * 10 + m % 10 = m := by omega
  have hday : d / 10 % 10 * 10 + d % 10 = d := by omega
  unfold Parse yyyymmdd
  have hdig0 : isDigit [digitChar (y / 1000), digitChar (y / 100), digitChar (y / 10), digitChar y,
      digitChar (m / 10), digitChar m, digitChar (d / 10), digitChar d] 0 = true := by
    simp [isDigit, digitChar_isDig]
  simp only [hdig0, List.length_cons, List.length_nil, List.take, List.drop]
  rw [atoi_of_digit _ _ ((isDig_iff _).1 (digitChar_isDig _))]
  simp only [leadingInt_digitChar, leadingInt_nil, hyear, getnum_digitChar, hmonth, hday]
  by_cases hm12 : 1 ≤ m ∧ m ≤ 12
  · have hdi := daysIn_eq y m hm12.1 hm12.2
    by_cases hdd : 1 ≤ d ∧ d ≤ monthLength y m
    · have hc : 1 ≤ m ∧ m ≤ 12 ∧ 1 ≤ d ∧ d ≤ monthLength y m := ⟨hm12.1, hm12.2, hdd.1, hdd.2⟩
      simp [hdi, hc]
      omega
    · have hc : ¬ (1 ≤ m ∧ m ≤ 12 ∧ 1 ≤ d ∧ d ≤ monthLength y m) := fun h => hdd ⟨h.2.2.1, h.2.2.2⟩
      simp only [hc, if_false, hdi]
      simp
      omega
  · have hc : ¬ (1 ≤ m ∧ m ≤ 12 ∧ 1 ≤ d ∧ d ≤ monthLength y m) := fun h => hm12 ⟨h.1, h.2.1⟩
    simp only [hc, if_false]
    simp
    omega

/-- `time.Parse` reads the eight digits of a valid date as the start of that day. -/
theorem Parse_yyyymmdd (y m d : Nat) (hv : ValidDate y m d) :
    Parse (yyyymmdd y m d) = some (Date (y : Int) (m : Int) (d : Int)) := by
  obtain ⟨hy, hm1, hm12, hd1, hd⟩ := hv
  have hd31 : d ≤ 31 := le_trans hd (monthLength_le y m)
  rw [Parse_digits y m d hy (by omega) (by omega)]
  simp [hm1, hm12, hd1, hd]

end Calendar

namespace Calendar

open Go Go.time

theorem leadingInt_digits (s : List Char) (acc q : Nat) (h : leadingInt acc s = (q, [])) :
    ∀ c ∈ s, 48 ≤ c.toNat ∧ c.toNat ≤ 57 := by
  induction s generalizing acc with
  | nil => simp
  | cons c cs ih =>
    rw [leadingInt] at h
    by_cases hc : (decide ('0' ≤ c) && decide (c ≤ '9')) = true
    · rw [if_pos hc] at h
      intro x hx
      rcases List.mem_cons.1 hx with rfl | hx
      · exact (isDig_iff _).1 hc
      · exact ih _ h x hx
    · rw [if_neg hc] at h
      cases h

theorem getnum_inv (s r : List Char) (n : Int) (h : getnum s true = some (n, r)) :
    ∃ a b, s = a :: b :: r ∧ (48 ≤ a.toNat ∧ a.toNat ≤ 57) ∧ (48 ≤ b.toNat ∧ b.toNat ≤ 57) := by
  unfold getnum at h
  match s, h with
  | [], h => simp [isDigit] at h
  | [a], h => simp [isDigit] at h
  | a :: b :: rest, h =>
    by_cases ha : (decide ('0' ≤ a) && decide (a ≤ '9')) = true
    · by_cases hb : (decide ('0' ≤ b) && decide (b ≤ '9')) = true
      · have h0 : isDigit (a :: b :: rest) 0 = true := by simpa [isDigit] using ha
        have h1 : isDigit (a :: b :: rest) 1 = true := by simpa [isDigit] using hb
        simp only [h0, h1, Bool.not_true, Bool.false_eq_true, if_false, List.drop, Option.some.injEq,
          Prod.mk.injEq] at h
        exact ⟨a, b, by rw [h.2], (isDig_iff _).1 ha, (isDig_iff _).1 hb⟩
      · have h0 : isDigit (a :: b :: rest) 0 = true := by simpa [isDigit] using ha
        have h1 : isDigit (a :: b :: rest) 1 = false := by simpa [isDigit] using hb
        simp [h0, h1] at h
    · have h0 : isDigit (a :: b :: rest) 0 = false := by simpa [isDigit] using ha
      simp [h0] at h

theorem digitChar_congr (n k : Nat) (h : n % 10 = k % 10) : digitChar n = digitChar k := by
  unfold digitChar
  rw [h]

/-- Eight digit characters are the rendering of the year, month and day they
spell. -/
theorem digits_eq_yyyymmdd (a b c e f g h i : Char)
    (ha : 48 ≤ a.toNat ∧ a.toNat ≤ 57) (hb : 48 ≤ b.toNat ∧ b.toNat ≤ 57)
    (hc : 48 ≤ c.toNat ∧ c.toNat ≤ 57) (he : 48 ≤ e.toNat ∧ e.toNat ≤ 57)
    (hf : 48 ≤ f.toNat ∧ f.toNat ≤ 57) (hg : 48 ≤ g.toNat ∧ g.toNat ≤ 57)
    (hh : 48 ≤ h.toNat ∧ h.toNat ≤ 57) (hi : 48 ≤ i.toNat ∧ i.toNat ≤ 57) :
    ∃ y m d, y ≤ 9999 ∧ m ≤ 99 ∧ d ≤ 99 ∧ String.mk [a, b, c, e, f, g, h, i] = yyyymmdd y m d := by
  refine ⟨1000 * (a.toNat - 48) + 100 * (b.toNat - 48) + 10 * (c.toNat - 48) + (e.toNat - 48),
    10 * (f.toNat - 48) + (g.toNat - 48), 10 * (h.toNat - 48) + (i.toNat - 48),
    by omega, by omega, by omega, ?_⟩
  unfold yyyymmdd
  congr 1
  rw [eq_digitChar a ha, eq_digitChar b hb, eq_digitChar c hc, eq_digitChar e he,
    eq_digitChar f hf, eq_digitChar g hg, eq_digitChar h hh, eq_digitChar i hi]
  simp only [digitChar_toNat]
  have e1 := digitChar_congr
  simp only [List.cons.injEq, and_true]
  refine ⟨?_, ?_, ?_, ?_, ?_, ?_, ?_, ?_⟩ <;> apply digitChar_congr <;> omega

/-- `time.Parse` accepts nothing but eight digits. -/
theorem Parse_some_digits (v : String) (t : Time) (hp : Parse v = some t) :
    ∃ y m d, y ≤ 9999 ∧ m ≤ 99 ∧ d ≤ 99 ∧ v = yyyymmdd y m d := by
  rcases v with ⟨l⟩
  unfold Parse at hp
  simp only at hp
  match l, hp with
  | [], hp => simp at hp
  | [_], hp => simp at hp
  | [_, _], hp => simp at hp
  | [_, _, _], hp => simp at hp
  | a :: b :: c :: e :: rest, hp =>
    by_cases h0 : isDigit (a :: b :: c :: e :: rest) 0 = true
    · have ha : 48 ≤ a.toNat ∧ a.toNat ≤ 57 := by
        simp only [isDigit, List.get?] at h0
        exact (isDig_iff _).1 h0
      simp only [h0, List.length_cons, List.take, List.drop] at hp
      rw [atoi_of_digit a _ ha] at hp
      rcases hl : leadingInt 0 [a, b, c, e] with ⟨q, _ | ⟨x, xs⟩⟩
      · have hall := leadingInt_digits _ _ _ hl
        rw [hl] at hp
        simp only at hp
        rcases hg1 : getnum rest true with _ | ⟨month, v1⟩
        · rw [hg1] at hp; simp at hp
        · rw [hg1] at hp
          simp only at hp
          obtain ⟨f, g, hrest, hf, hg⟩ := getnum_inv _ _ _ hg1
          rcases hg2 : getnum v1 true with _ | ⟨day, v2⟩
          · rw [hg2] at hp; simp at hp
          · rw [hg2] at hp
            simp only at hp
            obtain ⟨h, i, hv1, hh, hi⟩ := getnum_inv _ _ _ hg2
            have hv2 : v2 = [] := by
              by_contra hne
              have : v2.length ≠ 0 := fun hlen => hne (List.length_eq_zero.1 hlen)
              simp [this] at hp
            subst hv2 hv1 hrest
            exact digits_eq_yyyymmdd a b c e f g h i ha (hall b (by simp)) (hall c (by simp))
              (hall e (by simp)) hf hg hh hi
      · rw [hl] at hp
        simp at hp
    · simp [h0] at hp

end Calendar

namespace DingtalkPicNotify

open Go Go.time Go.crypto Oss Calendar

variable {σ : Type}

theorem TrimPrefix_append (pre s : String) : TrimPrefix (pre ++ s) pre = s := by
  unfold TrimPrefix HasPrefix
  have h : pre.data.isPrefixOf (pre ++ s).data = true := by
    rw [String.data_append, List.isPrefixOf_iff_prefix]
    exact List.prefix_append _ _
  rw [if_pos h, String.data_append, List.drop_left]

theorem TrimSuffix_append (s suf : String) : TrimSuffix (s ++ suf) suf = s := by
  unfold TrimSuffix HasSuffix
  have h : suf.data.isSuffixOf (s ++ suf).data = true := by
    rw [String.data_append, List.isSuffixOf_iff_suffix]
    exact List.suffix_append _ _
  rw [if_pos h, String.data_append, List.length_append, Nat.add_sub_cancel, List.take_left]

/-- The date segment of `raspi/{seg}/` is `seg`, whatever `seg` is. -/
theorem folderDateStr_folder (seg : String) : folderDateStr ("raspi/" ++ seg ++ "/") = seg := by
  unfold folderDateStr
  rw [String.append_assoc, TrimPrefix_append, TrimSuffix_append]

end DingtalkPicNotify

namespace DingtalkPicNotify

open Go Go.time Go.crypto Oss Calendar

variable {σ : Type}

/-- The test of line 166 against the start of a day: more than 72 hours of
true elapsed time, however far apart the two instants are. -/
theorem olderThanThreeDays_iff (now u : Time) (h0 : 0 ≤ now.nsec) (h1 : now.nsec < 1000000000)
    (hu0 : 0 ≤ u.nsec) (hu1 : u.nsec < 1000000000) :
    olderThanThreeDays now u = true ↔ now.nanos - u.nanos > 72 * 3600 * 1000000000 := by
  unfold olderThanThreeDays
  rw [Sub_eq now u h0 h1 hu0 hu1, decide_eq_true_eq]
  unfold Hour
  split_ifs <;> omega

/-- One pass of the folder loop on a folder whose date segment parses. -/
theorem cleanFolders_cons_parsed (W : World σ) (pfx : String) (rest : List String) (s : σ)
    (folderDate : Time) (hp : Parse (folderDateStr pfx) = some folderDate) :
    cleanFolders W (pfx :: rest) s =
      if olderThanThreeDays (W.Now s).1 folderDate = true then
        match deleteFolder W pfx (W.Now s).2 with
        | (.error err, s1, log) => (.error err, s1, log)
        | (.ok _, s1, log) =>
          ((cleanFolders W rest s1).1, (cleanFolders W rest s1).2.1,
            log ++ (cleanFolders W rest s1).2.2)
      else cleanFolders W rest (W.Now s).2 := by
  rw [cleanFolders, hp]

/-- One pass of the folder loop on a folder whose date segment does not parse. -/
theorem cleanFolders_cons_skipped (W : World σ) (pfx : String) (rest : List String) (s : σ)
    (hp : Parse (folderDateStr pfx) = none) :
    cleanFolders W (pfx :: rest) s = cleanFolders W rest s := by
  rw [cleanFolders, hp]

end DingtalkPicNotify

namespace DingtalkPicNotify

open Go Go.time Go.crypto Oss Calendar

variable {σ : Type}

theorem deletedKeys_append (a b : List Event) :
    deletedKeys (a ++ b) = deletedKeys a ++ deletedKeys b := by
  induction a with
  | nil => rfl
  | cons e a ih =>
    cases e <;> simp [deletedKeys, ih]

/-- A folder is emptied only of keys its own content listing returned. -/
theorem deleteFolder_deletes_listed (W : World σ) (hW : ListingSound W) (pfx : String) (s : σ)
    (k : String) (hk : k ∈ deletedKeys (deleteFolder W pfx s).2.2) : HasPrefix k pfx = true := by
  unfold deleteFolder at hk
  dsimp only at hk
  split at hk
  · simp [deletedKeys] at hk
  · rename_i objects s1 heq
    have hs := (hW _ _ _ _ heq).1
    split at hk
    · simp only [deletedKeys, List.append_nil] at hk
      exact hs k hk
    · simp only [deletedKeys, List.append_nil] at hk
      exact hs k hk

/-- Every key the folder loop deletes lies under a listed folder whose date
parsed and was found older than three days at some reading of the clock. -/
theorem cleanFolders_deletes_expired (W : World σ) (hW : ListingSound W) (l : List String)
    (s : σ) (k : String) (hk : k ∈ deletedKeys (cleanFolders W l s).2.2) :
    ∃ p ∈ l, HasPrefix k p = true ∧ ∃ fd s0, Parse (folderDateStr p) = some fd ∧
      olderThanThreeDays (W.Now s0).1 fd = true := by
  induction l generalizing s with
  | nil => simp [cleanFolders, deletedKeys] at hk
  | cons pfx rest ih =>
    rcases hp : Parse (folderDateStr pfx) with _ | fd
    · rw [cleanFolders_cons_skipped W pfx rest s hp] at hk
      obtain ⟨p, hpl, h⟩ := ih s hk
      exact ⟨p, List.mem_cons_of_mem _ hpl, h⟩
    · rw [cleanFolders_cons_parsed W pfx rest s fd hp] at hk
      by_cases hold : olderThanThreeDays (W.Now s).1 fd = true
      · rw [if_pos hold] at hk
        have hd := deleteFolder_deletes_listed W hW pfx (W.Now s).2 k
        rcases hdel : deleteFolder W pfx (W.Now s).2 with ⟨_ | u, s2, log⟩
        · rw [hdel] at hk hd
          exact ⟨pfx, List.mem_cons_self _ _, hd hk, fd, s, hp, hold⟩
        · rw [hdel] at hk hd
          simp only [deletedKeys_append, List.mem_append] at hk
          rcases hk with hk | hk
          · exact ⟨pfx, List.mem_cons_self _ _, hd hk, fd, s, hp, hold⟩
          · obtain ⟨p, hpl, h⟩ := ih s2 hk
            exact ⟨p, List.mem_cons_of_mem _ hpl, h⟩
      · rw [if_neg hold] at hk
        obtain ⟨p, hpl, h⟩ := ih _ hk
        exact ⟨p, List.mem_cons_of_mem _ hpl, h⟩

/-- Every key the sweep deletes lies under a folder `p` that a folder listing
returned (so `p` starts with `raspi/` and ends with `/`), whose date parsed and
was found older than three days at some reading of the clock. -/
theorem sweepPages_deletes_expired (W : World σ) (hW : ListingSound W) (fuel : Nat)
    (marker : String) (s : σ) (k : String)
    (hk : k ∈ deletedKeys (sweepPages W fuel marker s).2.2) :
    ∃ p, HasPrefix p "raspi/" = true ∧ HasSuffix p "/" = true ∧ HasPrefix k p = true ∧
      ∃ fd s0, Parse (folderDateStr p) = some fd ∧ olderThanThreeDays (W.Now s0).1 fd = true := by
  induction fuel generalizing marker s with
  | zero => simp [sweepPages, deletedKeys] at hk
  | succ fuel ih =>
    unfold sweepPages at hk
    split at hk
    · simp [deletedKeys] at hk
    · rename_i lor s1 heq
      have hcp := (hW _ _ _ _ heq).2 "/" rfl
      have hc := cleanFolders_deletes_expired W hW lor.CommonPrefixes s1 k
      have fromFolders : k ∈ deletedKeys (cleanFolders W lor.CommonPrefixes s1).2.2 →
          ∃ p, HasPrefix p "raspi/" = true ∧ HasSuffix p "/" = true ∧ HasPrefix k p = true ∧
            ∃ fd s0, Parse (folderDateStr p) = some fd ∧
              olderThanThreeDays (W.Now s0).1 fd = true := by
        intro h
        obtain ⟨p, hpl, hkp, h2⟩ := hc h
        exact ⟨p, (hcp p hpl).1, (hcp p hpl).2, hkp, h2⟩
      split at hk
      · rename_i err s2 log hcl
        rw [hcl] at fromFolders
        simp only [deletedKeys] at hk
        exact fromFolders hk
      · rename_i u s2 log hcl
        rw [hcl] at fromFolders
        split at hk
        · simp only [deletedKeys] at hk
          exact fromFolders hk
        · simp only [deletedKeys, deletedKeys_append, List.mem_append] at hk
          rcases hk with hk | hk
          · exact fromFolders hk
          · exact ih _ _ hk

end DingtalkPicNotify

namespace DingtalkPicNotify

open Go Go.time Go.crypto Oss Calendar

variable {σ : Type}

theorem split_at_separator {c : Char} {a b r1 r2 : List Char} (ha : c ∉ a) (hb : c ∉ b)
    (h : a ++ c :: r1 = b ++ c :: r2) : a = b := by
  induction a generalizing b with
  | nil =>
    cases b with
    | nil => rfl
    | cons x b =>
      simp only [List.nil_append, List.cons_append, List.cons.injEq] at h
      exact absurd (h.1 ▸ List.mem_cons_self _ _) hb
  | cons x a ih =>
    cases b with
    | nil =>
      simp only [List.nil_append, List.cons_append, List.cons.injEq] at h
      exact absurd (h.1 ▸ List.mem_cons_self _ _) ha
    | cons z b =>
      simp only [List.cons_append, List.cons.injEq] at h
      rw [h.1, ih (fun hm => ha (List.mem_cons_of_mem _ hm))
        (fun hm => hb (List.mem_cons_of_mem _ hm)) h.2]

theorem yyyymmdd_chars (y m d : Nat) :
    ∀ c ∈ (yyyymmdd y m d).data, 48 ≤ c.toNat ∧ c.toNat ≤ 57 := by
  intro c hc
  simp only [yyyymmdd, List.mem_cons, List.mem_singleton, List.not_mem_nil, or_false] at hc
  rcases hc with h | h | h | h | h | h | h | h <;> rw [h, digitChar_toNat] <;> omega

theorem yyyymmdd_no_slash (y m d : Nat) : '/' ∉ (yyyymmdd y m d).data := by
  intro h
  have := yyyymmdd_chars y m d _ h
  exact absurd this (by decide)

theorem Parse_empty : Parse "" = none := by decide

/-- A listed folder whose date parses is `raspi/`, its date segment, `/`. -/
theorem folder_shape (p : String) (fd : Time) (h1 : HasPrefix p "raspi/" = true)
    (h2 : HasSuffix p "/" = true) (hp : Parse (folderDateStr p) = some fd) :
    p = "raspi/" ++ folderDateStr p ++ "/" := by
  unfold HasPrefix at h1
  unfold HasSuffix at h2
  rw [List.isPrefixOf_iff_prefix] at h1
  rw [List.isSuffixOf_iff_suffix] at h2
  obtain ⟨q, hq⟩ := h1
  have hpq : p = "raspi/" ++ String.mk q := by
    apply String.ext
    rw [String.data_append, ← hq]
  rcases List.eq_nil_or_concat q with hnil | ⟨q1, c, hc⟩
  · subst hnil
    rw [hpq] at hp
    unfold folderDateStr at hp
    rw [TrimPrefix_append] at hp
    have : TrimSuffix (String.mk []) "/" = "" := by decide
    rw [this, Parse_empty] at hp
    cases hp
  · have hc1 : c = '/' := by
      obtain ⟨t, ht⟩ := h2
      rw [← hq, hc] at ht
      have h3 : (t ++ "/".data) = ("raspi/".data ++ q1) ++ [c] := by
        rw [ht]; simp
      have h4 := (List.append_inj' h3 rfl).2
      simpa using h4.symm
    have hq2 : String.mk q = String.mk q1 ++ "/" := by
      apply String.ext
      rw [String.data_append, hc, hc1]
      simp
    have hfd : folderDateStr p = String.mk q1 := by
      unfold folderDateStr
      rw [hpq, TrimPrefix_append, hq2, TrimSuffix_append]
    rw [hfd, hpq, hq2, String.append_assoc]

/-- A key under the folder of a segment without `/` lies under no other
folder of a date. -/
theorem key_folder_unique (k seg : String) (y m d : Nat) (hseg : '/' ∉ seg.data)
    (h1 : HasPrefix k ("raspi/" ++ seg ++ "/") = true)
    (h2 : HasPrefix k ("raspi/" ++ yyyymmdd y m d ++ "/") = true) : seg = yyyymmdd y m d := by
  unfold HasPrefix at h1 h2
  rw [List.isPrefixOf_iff_prefix] at h1 h2
  obtain ⟨r1, hr1⟩ := h1
  obtain ⟨r2, hr2⟩ := h2
  rw [← hr2] at hr1
  simp only [String.data_append, List.append_assoc] at hr1
  have h3 := List.append_cancel_left hr1
  have h4 : seg.data ++ '/' :: r1 = (yyyymmdd y m d).data ++ '/' :: r2 := by
    simpa using h3
  exact String.ext (split_at_separator hseg (yyyymmdd_no_slash y m d) h4)

end DingtalkPicNotify

namespace DingtalkPicNotify

open Go Go.time Go.crypto Oss Calendar

variable {σ : Type}

theorem isDigit_iff (c : Char) : c.isDigit = true ↔ 48 ≤ c.toNat ∧ c.toNat ≤ 57 := by
  unfold Char.isDigit
  simp only [Bool.and_eq_true, decide_eq_true_eq]
  exact Iff.rfl

/-- A segment that is not eight digits does not parse. -/
theorem Parse_nonconforming (seg : String)
    (hbad : seg.length ≠ 8 ∨ ∃ c ∈ seg.data, c.isDigit = false) : Parse seg = none := by
  rcases hp : Parse seg with _ | t
  · rfl
  · exfalso
    obtain ⟨y, m, d, _, _, _, hv⟩ := Parse_some_digits seg t hp
    rcases hbad with hlen | ⟨c, hc, hnd⟩
    · apply hlen
      rw [hv]
      rfl
    · rw [hv] at hc
      have := (isDigit_iff c).2 (yyyymmdd_chars y m d c hc)
      rw [this] at hnd
      exact Bool.noConfusion hnd

/-- Dropping a folder that does not parse from the listing changes nothing. -/
theorem cleanFolders_drop_skipped (W : World σ) (pfx : String)
    (hp : Parse (folderDateStr pfx) = none) (l1 l2 : List String) (s : σ) :
    cleanFolders W (l1 ++ pfx :: l2) s = cleanFolders W (l1 ++ l2) s := by
  induction l1 generalizing s with
  | nil => exact cleanFolders_cons_skipped W pfx l2 s hp
  | cons p l1 ih =>
    rcases hpp : Parse (folderDateStr p) with _ | fd
    · rw [List.cons_append, List.cons_append, cleanFolders_cons_skipped W p _ s hpp,
        cleanFolders_cons_skipped W p _ s hpp]
      exact ih s
    · rw [List.cons_append, List.cons_append, cleanFolders_cons_parsed W p _ s fd hpp,
        cleanFolders_cons_parsed W p _ s fd hpp]
      simp only [ih]

/-- Every content listing of the folder loop is for a folder whose date parses. -/
theorem cleanFolders_lists_parsed (W : World σ) (l : List String) (s : σ) (o : ListOptions)
    (ok : Bool) (he : Event.ListObjects o ok ∈ (cleanFolders W l s).2.2) :
    ∃ fd, Parse (folderDateStr o.Prefix) = some fd := by
  induction l generalizing s with
  | nil => simp [cleanFolders] at he
  | cons pfx rest ih =>
    rcases hp : Parse (folderDateStr pfx) with _ | fd
    · rw [cleanFolders_cons_skipped W pfx rest s hp] at he
      exact ih s he
    · rw [cleanFolders_cons_parsed W pfx rest s fd hp] at he
      by_cases hold : olderThanThreeDays (W.Now s).1 fd = true
      · rw [if_pos hold] at he
        have hdel : ∀ e ∈ (deleteFolder W pfx (W.Now s).2).2.2, e = Event.ListObjects o ok →
            ∃ fd, Parse (folderDateStr o.Prefix) = some fd := by
          intro e hmem heq
          unfold deleteFolder at hmem
          dsimp only at hmem
          subst heq
          split at hmem
          · simp only [List.mem_singleton, Event.ListObjects.injEq] at hmem
            rw [hmem.1]
            exact ⟨fd, hp⟩
          · split at hmem
            · simp only [List.mem_cons, Event.ListObjects.injEq, List.mem_singleton,
                reduceCtorEq, or_false, List.not_mem_nil] at hmem
              rw [hmem.1]
              exact ⟨fd, hp⟩
            · simp only [List.mem_cons, Event.ListObjects.injEq, List.mem_singleton,
                reduceCtorEq, or_false, List.not_mem_nil] at hmem
              rw [hmem.1]
              exact ⟨fd, hp⟩
        rcases hd : deleteFolder W pfx (W.Now s).2 with ⟨_ | u, s2, log⟩
        · rw [hd] at he hdel
          exact hdel _ he rfl
        · rw [hd] at he hdel
          simp only [List.mem_append] at he
          rcases he with h | h
          · exact hdel _ h rfl
          · exact ih s2 h
      · rw [if_neg hold] at he
        exact ih _ he

/-- Every listing of the sweep is a folder listing under `raspi/`, or the
content listing of a folder whose date parses. -/
theorem sweepPages_lists_parsed (W : World σ) (fuel : Nat) (marker : String) (s : σ)
    (o : ListOptions) (ok : Bool) (he : Event.ListObjects o ok ∈ (sweepPages W fuel marker s).2.2) :
    (∃ mk, o = folderListing mk) ∨ ∃ fd, Parse (folderDateStr o.Prefix) = some fd := by
  induction fuel generalizing marker s with
  | zero => simp [sweepPages] at he
  | succ fuel ih =>
    unfold sweepPages at he
    split at he
    · simp only [List.mem_singleton, Event.ListObjects.injEq] at he
      exact Or.inl ⟨marker, he.1⟩
    · rename_i lor s1 _
      have hc := cleanFolders_lists_parsed W lor.CommonPrefixes s1 o ok
      split at he
      · rename_i err s2 log hcl
        rw [hcl] at hc
        rcases List.mem_cons.1 he with h | h
        · exact Or.inl ⟨marker, (Event.ListObjects.inj h).1⟩
        · exact Or.inr (hc h)
      · rename_i u s2 log hcl
        rw [hcl] at hc
        split at he
        · rcases List.mem_cons.1 he with h | h
          · exact Or.inl ⟨marker, (Event.ListObjects.inj h).1⟩
          · exact Or.inr (hc h)
        · rcases List.mem_cons.1 he with h | h
          · exact Or.inl ⟨marker, (Event.ListObjects.inj h).1⟩
          · rcases List.mem_append.1 h with h | h
            · exact Or.inr (hc h)
            · exact ih _ _ h

theorem listAndClean_trace (W : World σ) (fuel : Nat) (config : Config) (s : σ) :
    (listAndCleanOldFolders W fuel config s).2.2 = [] ∨
    (listAndCleanOldFolders W fuel config s).2.2 = (sweepPages W fuel "" s).2.2 := by
  unfold listAndCleanOldFolders
  split
  · exact Or.inl rfl
  · split
    · exact Or.inl rfl
    · exact Or.inr rfl

/-- C2. Let `seg` be a date segment that is not exactly eight characters long
or holds a character that is not a digit.  The folder `raspi/{seg}/` does not
parse; wherever it stands in a folder listing, the loop runs exactly as if it
were not there (same result, same world, same requests: no error, and the
folders after it are processed); the sweep never lists its contents; and, when
listings are S3-style and `seg` holds no `/`, the sweep never asks to delete a
key under it. -/
theorem C2_nonconforming_folder_skipped (seg : String)
    (hbad : seg.length ≠ 8 ∨ ∃ c ∈ seg.data, c.isDigit = false) :
    Parse (folderDateStr ("raspi/" ++ seg ++ "/")) = none ∧
    (∀ (σ : Type) (W : World σ) (l1 l2 : List String) (s : σ),
      cleanFolders W (l1 ++ ("raspi/" ++ seg ++ "/") :: l2) s = cleanFolders W (l1 ++ l2) s) ∧
    (∀ (σ : Type) (W : World σ) (fuel : Nat) (config : Config) (s : σ)
        (delim mk : Option String) (ok : Bool),
      Event.ListObjects ⟨"raspi/" ++ seg ++ "/", delim, mk⟩ ok ∉
        (listAndCleanOldFolders W fuel config s).2.2) ∧
    (∀ (σ : Type) (W : World σ), ListingSound W → '/' ∉ seg.data →
      ∀ (fuel : Nat) (config : Config) (s : σ) (k : String),
        HasPrefix k ("raspi/" ++ seg ++ "/") = true →
        k ∉ deletedKeys (listAndCleanOldFolders W fuel config s).2.2) := by
  have hnone : Parse (folderDateStr ("raspi/" ++ seg ++ "/")) = none := by
    rw [folderDateStr_folder]
    exact Parse_nonconforming seg hbad
  refine ⟨hnone, ?_, ?_, ?_⟩
  · intro σ W l1 l2 s
    exact cleanFolders_drop_skipped W _ hnone l1 l2 s
  · intro σ W fuel config s delim mk ok he
    rcases listAndClean_trace W fuel config s with h | h
    · rw [h] at he
      simp at he
    · rw [h] at he
      rcases sweepPages_lists_parsed W fuel "" s _ ok he with ⟨mk2, hm⟩ | ⟨fd, hfd⟩
      · have h1 := congrArg ListOptions.Prefix hm
        simp only [folderListing] at h1
        have h2 := congrArg String.data h1
        simp only [String.data_append, List.append_assoc] at h2
        have h3 : ("raspi/".data ++ (seg.data ++ "/".data)).length = "raspi/".data.length := by
          rw [h2]
        simp at h3
      · rw [hnone] at hfd
        cases hfd
  · intro σ W hW hseg fuel config s k hk hdel
    rcases listAndClean_trace W fuel config s with h | h
    · rw [h] at hdel
      simp [deletedKeys] at hdel
    · rw [h] at hdel
      obtain ⟨p, hp1, hp2, hkp, fd, s0, hparse, _⟩ := sweepPages_deletes_expired W hW fuel "" s k hdel
      have hshape := folder_shape p fd hp1 hp2 hparse
      obtain ⟨y, m, d, _, _, _, hv⟩ := Parse_some_digits _ _ hparse
      rw [hv] at hshape
      rw [hshape] at hkp
      have hseg2 := key_folder_unique k seg y m d hseg hk hkp
      have : Parse (yyyymmdd y m d) = none := by
        rw [← hseg2]
        exact Parse_nonconforming seg hbad
      rw [← hv, hparse] at this
      cases this

end DingtalkPicNotify

namespace DingtalkPicNotify

open Go Go.time Go.crypto Oss Calendar

/-- C2 on the folder `raspi/notadate/`: eight characters, none a digit. -/
theorem C2_nonconforming_witness :
    ("notadate".length ≠ 8 ∨ ∃ c ∈ "notadate".data, c.isDigit = false) ∧
    Parse (folderDateStr ("raspi/" ++ "notadate" ++ "/")) = none :=
  ⟨Or.inr ⟨'n', by decide, by decide⟩,
   (C2_nonconforming_folder_skipped "notadate" (Or.inr ⟨'n', by decide, by decide⟩)).1⟩

/-- The scenario of the specification: with `raspi/20200101/` and
`raspi/notadate/` in the bucket on 2024-06-04, the sweep lists the folders,
lists and deletes the objects of the first, reports it, and leaves the second
untouched. -/
theorem sweep_scenario :
    listAndCleanOldFolders (bucketWorld defaultMaxKeys ⟨1717459201, 0, 0⟩) 1 sampleConfig
        ⟨["raspi/20200101/1_a.jpg", "raspi/20200101/2_b.jpg", "raspi/notadate/x.jpg"]⟩
      = (some (.ok ()),
         ⟨["raspi/notadate/x.jpg"]⟩,
         [Event.ListObjects (folderListing "") true,
          Event.ListObjects ⟨"raspi/20200101/", none, none⟩ true,
          Event.DeleteObjects ["raspi/20200101/1_a.jpg", "raspi/20200101/2_b.jpg"] true,
          Event.Println "已删除过期文件夹: raspi/20200101/"]) := by
  decide!

end DingtalkPicNotify

namespace DingtalkPicNotify

open Go Go.time Go.crypto Oss Calendar

variable {σ : Type}

/-- A folder whose content listing fails: the sweep stops with that error. -/
theorem deleteFolder_list_failed (W : World σ) (pfx : String) (s s3 : σ) (err : String)
    (h : W.ListObjects ⟨pfx, none, none⟩ s = (.error err, s3)) :
    deleteFolder W pfx s =
      (.error ("列出文件夹" ++ pfx ++ "内容失败: " ++ err), s3,
        [Event.ListObjects ⟨pfx, none, none⟩ false]) := by
  unfold deleteFolder
  simp only [h]

/-- A folder whose batch delete fails: the sweep stops with that error. -/
theorem deleteFolder_delete_failed (W : World σ) (pfx : String) (s s3 s4 : σ)
    (objs : ListObjectsResult) (err : String)
    (h : W.ListObjects ⟨pfx, none, none⟩ s = (.ok objs, s3))
    (hd : W.DeleteObjects objs.Objects s3 = (.error err, s4)) :
    deleteFolder W pfx s =
      (.error ("删除文件夹" ++ pfx ++ "失败: " ++ err), s4,
        [Event.ListObjects ⟨pfx, none, none⟩ true, Event.DeleteObjects objs.Objects false]) := by
  unfold deleteFolder
  simp only [h, hd]

/-- A folder that is listed and emptied. -/
theorem deleteFolder_done (W : World σ) (pfx : String) (s s3 s4 : σ)
    (objs : ListObjectsResult)
    (h : W.ListObjects ⟨pfx, none, none⟩ s = (.ok objs, s3))
    (hd : W.DeleteObjects objs.Objects s3 = (.ok (), s4)) :
    deleteFolder W pfx s =
      (.ok (), s4,
        [Event.ListObjects ⟨pfx, none, none⟩ true, Event.DeleteObjects objs.Objects true,
         Event.Println ("已删除过期文件夹: " ++ pfx)]) := by
  unfold deleteFolder
  simp only [h, hd]

/-- The sweep proper starts once the client and the bucket handle exist. -/
theorem listAndClean_started (W : World σ) (fuel : Nat) (config : Config) (s : σ)
    (hnew : W.New config.AliyunOSS.Endpoint config.AliyunOSS.AccessKeyID
      config.AliyunOSS.AccessKeySecret = .ok ())
    (hbucket : W.Bucket config.AliyunOSS.BucketName = .ok ()) :
    listAndCleanOldFolders W fuel config s = sweepPages W fuel "" s := by
  unfold listAndCleanOldFolders
  simp only [hnew, hbucket]

/-- One page of the paging loop whose folder listing succeeds. -/
theorem sweepPages_listed (W : World σ) (fuel : Nat) (marker : String) (s s1 : σ)
    (lor : ListObjectsResult) (h : W.ListObjects (folderListing marker) s = (.ok lor, s1)) :
    sweepPages W (fuel + 1) marker s =
      match cleanFolders W lor.CommonPrefixes s1 with
      | (.error err, s2, log) =>
        (some (.error err), s2, Event.ListObjects (folderListing marker) true :: log)
      | (.ok _, s2, log) =>
        if !lor.IsTruncated then
          (some (.ok ()), s2, Event.ListObjects (folderListing marker) true :: log)
        else
          ((sweepPages W fuel lor.NextMarker s2).1, (sweepPages W fuel lor.NextMarker s2).2.1,
            Event.ListObjects (folderListing marker) true ::
              (log ++ (sweepPages W fuel lor.NextMarker s2).2.2)) := by
  rw [sweepPages, h]

/-- Every content listing of the folder loop is for a folder whose date parses
and was found older than three days at some reading of the clock. -/
theorem cleanFolders_lists_expired (W : World σ) (l : List String) (s : σ) (o : ListOptions)
    (ok : Bool) (he : Event.ListObjects o ok ∈ (cleanFolders W l s).2.2) :
    ∃ fd s0, Parse (folderDateStr o.Prefix) = some fd ∧
      olderThanThreeDays (W.Now s0).1 fd = true := by
  induction l generalizing s with
  | nil => simp [cleanFolders] at he
  | cons pfx rest ih =>
    rcases hp : Parse (folderDateStr pfx) with _ | fd
    · rw [cleanFolders_cons_skipped W pfx rest s hp] at he
      exact ih s he
    · rw [cleanFolders_cons_parsed W pfx rest s fd hp] at he
      by_cases hold : olderThanThreeDays (W.Now s).1 fd = true
      · rw [if_pos hold] at he
        have hdel : ∀ e ∈ (deleteFolder W pfx (W.Now s).2).2.2, e = Event.ListObjects o ok →
            o.Prefix = pfx := by
          intro e hmem heq
          unfold deleteFolder at hmem
          dsimp only at hmem
          subst heq
          split at hmem
          · simp only [List.mem_singleton, Event.ListObjects.injEq] at hmem
            rw [hmem.1]
          · split at hmem
            · simp only [List.mem_cons, Event.ListObjects.injEq, List.mem_singleton,
                reduceCtorEq, or_false, List.not_mem_nil] at hmem
              rw [hmem.1]
            · simp only [List.mem_cons, Event.ListObjects.injEq, List.mem_singleton,
                reduceCtorEq, or_false, List.not_mem_nil] at hmem
              rw [hmem.1]
        rcases hd : deleteFolder W pfx (W.Now s).2 with ⟨_ | u, s2, log⟩
        · rw [hd] at he hdel
          exact ⟨fd, s, by rw [hdel _ he rfl]; exact hp, hold⟩
        · rw [hd] at he hdel
          simp only [List.mem_append] at he
          rcases he with h | h
          · exact ⟨fd, s, by rw [hdel _ h rfl]; exact hp, hold⟩
          · exact ih s2 h
      · rw [if_neg hold] at he
        exact ih _ he

/-- Every listing of the sweep is a folder listing under `raspi/`, or the
content listing of a folder whose date parses and was found older than three
days at some reading of the clock. -/
theorem sweepPages_lists_expired (W : World σ) (fuel : Nat) (marker : String) (s : σ)
    (o : ListOptions) (ok : Bool) (he : Event.ListObjects o ok ∈ (sweepPages W fuel marker s).2.2) :
    (∃ mk, o = folderListing mk) ∨ ∃ fd s0, Parse (folderDateStr o.Prefix) = some fd ∧
      olderThanThreeDays (W.Now s0).1 fd = true := by
  induction fuel generalizing marker s with
  | zero => simp [sweepPages] at he
  | succ fuel ih =>
    unfold sweepPages at he
    split at he
    · simp only [List.mem_singleton, Event.ListObjects.injEq] at he
      exact Or.inl ⟨marker, he.1⟩
    · rename_i lor s1 _
      have hc := cleanFolders_lists_expired W lor.CommonPrefixes s1 o ok
      split at he
      · rename_i err s2 log hcl
        rw [hcl] at hc
        rcases List.mem_cons.1 he with h | h
        · exact Or.inl ⟨marker, (Event.ListObjects.inj h).1⟩
        · exact Or.inr (hc h)
      · rename_i u s2 log hcl
        rw [hcl] at hc
        split at he
        · rcases List.mem_cons.1 he with h | h
          · exact Or.inl ⟨marker, (Event.ListObjects.inj h).1⟩
          · exact Or.inr (hc h)
        · rcases List.mem_cons.1 he with h | h
          · exact Or.inl ⟨marker, (Event.ListObjects.inj h).1⟩
          · rcases List.mem_append.1 h with h | h
            · exact Or.inr (hc h)
            · exact ih _ _ h

/-- The folder of a date is not the prefix of the folder listing. -/
theorem folder_ne_root (seg : String) : "raspi/" ++ seg ++ "/" ≠ "raspi/" := by
  intro h1
  have h2 := congrArg String.data h1
  simp only [String.data_append, List.append_assoc] at h2
  have h3 : ("raspi/".data ++ (seg.data ++ "/".data)).length = "raspi/".data.length := by
    rw [h2]
  simp at h3

/-- C1. For every date `y`-`m`-`d` of the calendar (four-digit year) and its
folder `raspi/YYYYMMDD/`, the sweep extracts exactly the eight digits, reads
them as 00:00 UTC of that day, and treats the folder as expired exactly when
the clock reads more than 72 hours after that instant (at 72h0s it does not,
at 72h0m0.001s it does).

Expired: when the first folder listing of `listAndCleanOldFolders` returns the
folder first and the clock then reads more than 72 hours later, the very next
request is the listing of the folder's contents; if that fails the sweep
returns the error; otherwise the next request is the batch delete of exactly
the objects that listing returned; if that fails the sweep returns the error;
otherwise the deletion is logged, and when the folder is the only one of an
untruncated listing the sweep returns without error.

Not expired: when the clock reads at most 72 hours later the loop goes on to
the next folder with no request for this one; and in a sweep during which the
clock never reads more than 72 hours later, no request lists the folder's
contents and, with S3-style listings, no key under it is asked to be
deleted. -/
theorem C1_folder_expired_iff_more_than_72h (y m d : Nat) (hv : ValidDate y m d) :
    folderDateStr ("raspi/" ++ yyyymmdd y m d ++ "/") = yyyymmdd y m d ∧
    Parse (yyyymmdd y m d) = some (midnightUTC y m d) ∧
    (∀ now : Time, 0 ≤ now.nsec → now.nsec < 1000000000 →
      (olderThanThreeDays now (midnightUTC y m d) = true ↔
        now.nanos - (midnightUTC y m d).nanos > 72 * 3600 * 1000000000)) ∧
    (∀ now : Time, 0 ≤ now.nsec → now.nsec < 1000000000 →
      now.nanos = (midnightUTC y m d).nanos + 72 * 3600 * 1000000000 →
      olderThanThreeDays now (midnightUTC y m d) = false) ∧
    (∀ now : Time, 0 ≤ now.nsec → now.nsec < 1000000000 →
      now.nanos = (midnightUTC y m d).nanos + 72 * 3600 * 1000000000 + 1000000 →
      olderThanThreeDays now (midnightUTC y m d) = true) ∧
    (∀ (σ : Type) (W : World σ) (fuel : Nat) (config : Config) (s s1 : σ)
        (lor : ListObjectsResult) (rest : List String),
      W.New config.AliyunOSS.Endpoint config.AliyunOSS.AccessKeyID
        config.AliyunOSS.AccessKeySecret = .ok () →
      W.Bucket config.AliyunOSS.BucketName = .ok () →
      W.ListObjects (folderListing "") s = (.ok lor, s1) →
      lor.CommonPrefixes = ("raspi/" ++ yyyymmdd y m d ++ "/") :: rest →
      0 ≤ (W.Now s1).1.nsec → (W.Now s1).1.nsec < 1000000000 →
      (W.Now s1).1.nanos - (midnightUTC y m d).nanos > 72 * 3600 * 1000000000 →
      (∀ (err : String) (s3 : σ),
        W.ListObjects ⟨"raspi/" ++ yyyymmdd y m d ++ "/", none, none⟩ (W.Now s1).2
          = (.error err, s3) →
        listAndCleanOldFolders W (fuel + 1) config s =
          (some (.error ("列出文件夹" ++ ("raspi/" ++ yyyymmdd y m d ++ "/") ++ "内容失败: " ++ err)),
            s3,
            [Event.ListObjects (folderListing "") true,
             Event.ListObjects ⟨"raspi/" ++ yyyymmdd y m d ++ "/", none, none⟩ false])) ∧
      (∀ (objs : ListObjectsResult) (s3 : σ),
        W.ListObjects ⟨"raspi/" ++ yyyymmdd y m d ++ "/", none, none⟩ (W.Now s1).2
          = (.ok objs, s3) →
        (∀ (err : String) (s4 : σ), W.DeleteObjects objs.Objects s3 = (.error err, s4) →
          listAndCleanOldFolders W (fuel + 1) config s =
            (some (.error ("删除文件夹" ++ ("raspi/" ++ yyyymmdd y m d ++ "/") ++ "失败: " ++ err)),
              s4,
              [Event.ListObjects (folderListing "") true,
               Event.ListObjects ⟨"raspi/" ++ yyyymmdd y m d ++ "/", none, none⟩ true,
               Event.DeleteObjects objs.Objects false])) ∧
        (∀ s4 : σ, W.DeleteObjects objs.Objects s3 = (.ok (), s4) →
          (∃ tail, (listAndCleanOldFolders W (fuel + 1) config s).2.2 =
            Event.ListObjects (folderListing "") true ::
            Event.ListObjects ⟨"raspi/" ++ yyyymmdd y m d ++ "/", none, none⟩ true ::
            Event.DeleteObjects objs.Objects true ::
            Event.Println ("已删除过期文件夹: " ++ ("raspi/" ++ yyyymmdd y m d ++ "/")) :: tail) ∧
          (rest = [] → lor.IsTruncated = false →
            listAndCleanOldFolders W (fuel + 1) config s =
              (some (.ok ()), s4,
                [Event.ListObjects (folderListing "") true,
                 Event.ListObjects ⟨"raspi/" ++ yyyymmdd y m d ++ "/", none, none⟩ true,
                 Event.DeleteObjects objs.Objects true,
                 Event.Println
                   ("已删除过期文件夹: " ++ ("raspi/" ++ yyyymmdd y m d ++ "/"))]))))) ∧
    (∀ (σ : Type) (W : World σ) (rest : List String) (s : σ),
      0 ≤ (W.Now s).1.nsec → (W.Now s).1.nsec < 1000000000 →
      (W.Now s).1.nanos - (midnightUTC y m d).nanos ≤ 72 * 3600 * 1000000000 →
      cleanFolders W (("raspi/" ++ yyyymmdd y m d ++ "/") :: rest) s =
        cleanFolders W rest (W.Now s).2) ∧
    (∀ (σ : Type) (W : World σ),
      (∀ s0, 0 ≤ (W.Now s0).1.nsec ∧ (W.Now s0).1.nsec < 1000000000 ∧
        (W.Now s0).1.nanos - (midnightUTC y m d).nanos ≤ 72 * 3600 * 1000000000) →
      ∀ (fuel : Nat) (config : Config) (s : σ),
        (∀ (delim mk : Option String) (ok : Bool),
          Event.ListObjects ⟨"raspi/" ++ yyyymmdd y m d ++ "/", delim, mk⟩ ok ∉
            (listAndCleanOldFolders W fuel config s).2.2) ∧
        (ListingSound W → ∀ k : String,
          HasPrefix k ("raspi/" ++ yyyymmdd y m d ++ "/") = true →
          k ∉ deletedKeys (listAndCleanOldFolders W fuel config s).2.2)) := by
  have hparse : Parse (yyyymmdd y m d) = some (midnightUTC y m d) := by
    rw [Parse_yyyymmdd y m d hv, Date_eq_midnightUTC y m d hv]
  have hpF : Parse (folderDateStr ("raspi/" ++ yyyymmdd y m d ++ "/"))
      = some (midnightUTC y m d) := by
    rw [folderDateStr_folder]
    exact hparse
  have hiff : ∀ now : Time, 0 ≤ now.nsec → now.nsec < 1000000000 →
      (olderThanThreeDays now (midnightUTC y m d) = true ↔
        now.nanos - (midnightUTC y m d).nanos > 72 * 3600 * 1000000000) := by
    intro now h0 h1
    exact olderThanThreeDays_iff now (midnightUTC y m d) h0 h1 (le_refl _)
      (show (0 : Int) < 1000000000 by decide)
  refine ⟨folderDateStr_folder _, hparse, hiff, ?_, ?_, ?_, ?_, ?_⟩
  · intro now h0 h1 hn
    rw [← Bool.not_eq_true, hiff now h0 h1]
    omega
  · intro now h0 h1 hn
    rw [hiff now h0 h1]
    omega
  · intro σ W fuel config s s1 lor rest hnew hbucket hlist hcp h0 h1 hgt
    have hold := (hiff _ h0 h1).2 hgt
    have hrun := listAndClean_started W (fuel + 1) config s hnew hbucket
    have hpage := sweepPages_listed W fuel "" s s1 lor hlist
    have hloop := cleanFolders_cons_parsed W _ rest s1 _ hpF
    rw [if_pos hold] at hloop
    rw [hcp] at hpage
    refine ⟨?_, ?_⟩
    · intro err s3 hl
      rw [deleteFolder_list_failed W _ _ s3 err hl] at hloop
      rw [hrun, hpage, hloop]
    · intro objs s3 hl
      refine ⟨?_, ?_⟩
      · intro err s4 hd
        rw [deleteFolder_delete_failed W _ _ s3 s4 objs err hl hd] at hloop
        rw [hrun, hpage, hloop]
      · intro s4 hd
        rw [deleteFolder_done W _ _ s3 s4 objs hl hd] at hloop
        simp only at hloop
        refine ⟨?_, ?_⟩
        · rw [hrun, hpage, hloop]
          rcases hr : (cleanFolders W rest s4).1 with e | u
          · exact ⟨_, rfl⟩
          · simp only
            split
            · exact ⟨_, rfl⟩
            · exact ⟨_, rfl⟩
        · intro hrest htr
          subst hrest
          rw [hrun, hpage, hloop, htr]
          rfl
  · intro σ W rest s h0 h1 hle
    have hnot : ¬ olderThanThreeDays (W.Now s).1 (midnightUTC y m d) = true := by
      rw [hiff _ h0 h1]
      omega
    rw [cleanFolders_cons_parsed W _ rest s _ hpF, if_neg hnot]
  · intro σ W hclock fuel config s
    have hyoung : ∀ s0, ¬ olderThanThreeDays (W.Now s0).1 (midnightUTC y m d) = true := by
      intro s0
      obtain ⟨h0, h1, hle⟩ := hclock s0
      rw [hiff _ h0 h1]
      omega
    refine ⟨?_, ?_⟩
    · intro delim mk ok he
      rcases listAndClean_trace W fuel config s with h | h
      · rw [h] at he
        simp at he
      · rw [h] at he
        rcases sweepPages_lists_expired W fuel "" s _ ok he with ⟨mk2, hm⟩ | ⟨fd, s0, hfd, hold⟩
        · have h1 := congrArg ListOptions.Prefix hm
          simp only [folderListing] at h1
          exact folder_ne_root _ h1
        · simp only at hfd
          rw [hpF] at hfd
          cases hfd
          exact hyoung s0 hold
    · intro hW k hk hdel
      rcases listAndClean_trace W fuel config s with h | h
      · rw [h] at hdel
        simp [deletedKeys] at hdel
      · rw [h] at hdel
        obtain ⟨p, hp1, hp2, hkp, fd, s0, hparse2, hold⟩ :=
          sweepPages_deletes_expired W hW fuel "" s _ hdel
        have hshape := folder_shape p fd hp1 hp2 hparse2
        obtain ⟨y1, m1, d1, _, _, _, hv1⟩ := Parse_some_digits _ _ hparse2
        rw [hv1] at hshape
        rw [hshape] at hkp
        have hsame := key_folder_unique _ (yyyymmdd y m d) y1 m1 d1 (yyyymmdd_no_slash y m d)
          hk hkp
        have hfd : fd = midnightUTC y m d := by
          rw [hv1, ← hsame, hparse] at hparse2
          exact (Option.some.inj hparse2).symm
        subst hfd
        exact hyoung s0 hold

end DingtalkPicNotify

namespace DingtalkPicNotify

open Go Go.time Go.crypto Oss Calendar

/-- C1 on the folder `raspi/20200101/` holding one picture; 00:00 UTC of
2020-01-01 is 1577836800 s after the epoch.  A sweep at 72h0m0.001s after it
(1578096000.001) lists the folder's contents and deletes the picture; a sweep
at exactly 72h0s (1578096000) makes the folder listing and no other request,
and the picture stays. -/
theorem C1_folder_expired_witness :
    ValidDate 2020 1 1 ∧
    (midnightUTC 2020 1 1).unixSec = 1577836800 ∧
    listAndCleanOldFolders (bucketWorld defaultMaxKeys ⟨1578096000, 1000000, 0⟩) 1 sampleConfig
        ⟨["raspi/20200101/a.jpg"]⟩
      = (some (.ok ()), ⟨[]⟩,
         [Event.ListObjects (folderListing "") true,
          Event.ListObjects ⟨"raspi/20200101/", none, none⟩ true,
          Event.DeleteObjects ["raspi/20200101/a.jpg"] true,
          Event.Println "已删除过期文件夹: raspi/20200101/"]) ∧
    listAndCleanOldFolders (bucketWorld defaultMaxKeys ⟨1578096000, 0, 0⟩) 1 sampleConfig
        ⟨["raspi/20200101/a.jpg"]⟩
      = (some (.ok ()), ⟨["raspi/20200101/a.jpg"]⟩,
         [Event.ListObjects (folderListing "") true]) ∧
    (∀ (delim mk : Option String) (ok : Bool),
      Event.ListObjects ⟨"raspi/" ++ yyyymmdd 2020 1 1 ++ "/", delim, mk⟩ ok ∉
        (listAndCleanOldFolders (bucketWorld defaultMaxKeys ⟨1578096000, 0, 0⟩) 1 sampleConfig
          ⟨["raspi/20200101/a.jpg"]⟩).2.2) := by
  have hfolder : "raspi/" ++ yyyymmdd 2020 1 1 ++ "/" = "raspi/20200101/" := by decide
  have hexp := ((((C1_folder_expired_iff_more_than_72h 2020 1 1 (by decide)).2.2.2.2.2.1
    Bucket (bucketWorld defaultMaxKeys ⟨1578096000, 1000000, 0⟩) 0 sampleConfig
    ⟨["raspi/20200101/a.jpg"]⟩ ⟨["raspi/20200101/a.jpg"]⟩
    (listPage defaultMaxKeys (folderListing "") ["raspi/20200101/a.jpg"]) []
    rfl rfl rfl (by decide!)
    (show (0 : Int) ≤ 1000000 from by decide)
    (show (1000000 : Int) < 1000000000 from by decide)
    (show (⟨1578096000, 1000000, 0⟩ : Time).nanos - (midnightUTC 2020 1 1).nanos
      > 72 * 3600 * 1000000000 from by decide!)).2
    (listPage defaultMaxKeys ⟨"raspi/" ++ yyyymmdd 2020 1 1 ++ "/", none, none⟩
      ["raspi/20200101/a.jpg"])
    ⟨["raspi/20200101/a.jpg"]⟩ rfl).2 ⟨[]⟩ (by decide!)).2 rfl (by decide!)
  have hobjs : (listPage defaultMaxKeys ⟨"raspi/20200101/", none, none⟩
      ["raspi/20200101/a.jpg"]).Objects = ["raspi/20200101/a.jpg"] := by decide!
  rw [hfolder, hobjs] at hexp
  refine ⟨by decide, by decide!, hexp, by decide!, ?_⟩
  exact ((C1_folder_expired_iff_more_than_72h 2020 1 1 (by decide)).2.2.2.2.2.2.2
    Bucket (bucketWorld defaultMaxKeys ⟨1578096000, 0, 0⟩)
    (fun _ => show (0 : Int) ≤ 0 ∧ (0 : Int) < 1000000000 ∧
      (⟨1578096000, 0, 0⟩ : Time).nanos - (midnightUTC 2020 1 1).nanos
        ≤ 72 * 3600 * 1000000000 from ⟨le_refl _, by decide, by decide!⟩)
    1 sampleConfig ⟨["raspi/20200101/a.jpg"]⟩).1

end DingtalkPicNotify


namespace Oss

open Go Go.time DingtalkPicNotify

theorem uptoDelimiter_suffix (d : List Char) (l cp : List Char)
    (h : uptoDelimiter d l = some cp) : d <:+ cp := by
  induction l generalizing cp with
  | nil => simp [uptoDelimiter] at h
  | cons c cs ih =>
    unfold uptoDelimiter at h
    split at h
    · cases h
      exact List.suffix_refl _
    · rcases hr : uptoDelimiter d cs with _ | r
      · rw [hr] at h
        cases h
      · rw [hr] at h
        simp only [Option.map_some', Option.some.injEq] at h
        rw [← h]
        exact (ih r hr).trans (List.suffix_cons _ _)

theorem entryOf_object (o : ListOptions) (key : String) (h : (entryOf o key).2 = false) :
    (entryOf o key).1 = key := by
  unfold entryOf at h ⊢
  rcases hd : o.Delimiter with _ | d
  · rfl
  · rw [hd] at h
    simp only at h ⊢
    by_cases hne : d = ""
    · rw [if_pos hne]
    · rw [if_neg hne] at h ⊢
      rcases hu : uptoDelimiter d.data (key.data.drop o.Prefix.data.length) with _ | cp
      · rfl
      · rw [hu] at h
        cases h

theorem entryOf_commonPrefix (o : ListOptions) (key d : String) (hd : o.Delimiter = some d)
    (h : (entryOf o key).2 = true) :
    HasPrefix (entryOf o key).1 o.Prefix = true ∧ HasSuffix (entryOf o key).1 d = true := by
  unfold entryOf at h ⊢
  rw [hd] at h ⊢
  simp only at h ⊢
  split at h
  · cases h
  · rename_i hne
    rw [if_neg hne]
    rcases hu : uptoDelimiter d.data (key.data.drop o.Prefix.data.length) with _ | cp
    · rw [hu] at h
      cases h
    · simp only
      constructor
      · unfold HasPrefix
        rw [List.isPrefixOf_iff_prefix, String.data_append]
        exact List.prefix_append _ _
      · unfold HasSuffix
        rw [List.isSuffixOf_iff_suffix, String.data_append]
        exact (uptoDelimiter_suffix _ _ _ hu).trans (List.suffix_append _ _)

theorem listPage_page_mem (n : Nat) (o : ListOptions) (keys : List String) (e : String × Bool)
    (he : e ∈ (((((keys.filter (fun k => HasPrefix k o.Prefix)).map (entryOf o)).destutter
      (fun a b => a ≠ b)).filter (fun e => decide (o.Marker.getD "" < e.1))).take n)) :
    ∃ key ∈ keys, HasPrefix key o.Prefix = true ∧ e = entryOf o key := by
  have h1 := List.mem_of_mem_take he
  have h2 := (List.destutter_sublist _ _).subset (List.mem_filter.1 h1).1
  rw [List.mem_map] at h2
  obtain ⟨key, hk, hke⟩ := h2
  rw [List.mem_filter] at hk
  exact ⟨key, hk.1, hk.2, hke.symm⟩

/-- The in-memory bucket lists S3-style. -/
theorem bucketWorld_sound (n : Nat) (clock : Time) : ListingSound (bucketWorld n clock) := by
  intro o s s1 r h
  have hr : r = listPage n o s.keys := by
    have := congrArg Prod.fst h
    simp only [bucketWorld] at this
    exact (Except.ok.inj this).symm
  subst hr
  constructor
  · intro k hk
    simp only [listPage, List.mem_map, List.mem_filter] at hk
    obtain ⟨e, ⟨hep, hflag⟩, hek⟩ := hk
    obtain ⟨key, _, hpre, hee⟩ := listPage_page_mem n o s.keys e hep
    subst hee
    have hf : (entryOf o key).2 = false := by simpa using hflag
    rw [← hek, entryOf_object o key hf]
    exact hpre
  · intro d hd p hp
    simp only [listPage, List.mem_map, List.mem_filter] at hp
    obtain ⟨e, ⟨hep, hflag⟩, hek⟩ := hp
    obtain ⟨key, _, _, hee⟩ := listPage_page_mem n o s.keys e hep
    subst hee
    rw [← hek]
    exact entryOf_commonPrefix o key d hd hflag

end Oss

namespace DingtalkPicNotify

open Go Go.time Go.crypto Oss Calendar

variable {σ : Type}

theorem objectName_under_folder (t : Time) (filePath : String) :
    HasPrefix (objectName t filePath) ("raspi/" ++ t.Format20060102 ++ "/") = true := by
  have h : objectName t filePath = ("raspi/" ++ t.Format20060102 ++ "/") ++
      (fmtInt (Int.tmod (Int.tdiv t.UnixNano 1000000) 1000) ++ "_" ++ Base filePath) := by
    simp only [objectName, String.append_assoc]
  unfold HasPrefix
  rw [List.isPrefixOf_iff_prefix, h, String.data_append]
  exact List.prefix_append _ _

/-- C3 (amended). The retention window is counted from the start, in UTC, of
the day an object's folder is named after, not from the upload.  Let an
object be stored by `uploadToOSS` at `t`, in the folder of the date `y`-`m`-`d`
that `t` falls on, and let the sweep run while the clock never reads more than
72 hours after 00:00 UTC of that date.  Then, with S3-style listings, the
sweep does not ask to delete that object. -/
theorem C3_sweep_keeps_folders_within_72h (W : World σ) (hW : ListingSound W)
    (t : Time) (filePath : String) (y m d : Nat) (hv : ValidDate y m d)
    (hdate : t.Format20060102 = yyyymmdd y m d)
    (hnorm : ∀ s0, 0 ≤ (W.Now s0).1.nsec ∧ (W.Now s0).1.nsec < 1000000000)
    (hclock : ∀ s0, (W.Now s0).1.nanos - (midnightUTC y m d).nanos ≤ 72 * 3600 * 1000000000)
    (fuel : Nat) (config : Config) (s : σ) :
    objectName t filePath ∉ deletedKeys (listAndCleanOldFolders W fuel config s).2.2 := by
  intro hdel
  rcases listAndClean_trace W fuel config s with h | h
  · rw [h] at hdel
    simp [deletedKeys] at hdel
  · rw [h] at hdel
    obtain ⟨p, hp1, hp2, hkp, fd, s0, hparse, hold⟩ :=
      sweepPages_deletes_expired W hW fuel "" s _ hdel
    have hshape := folder_shape p fd hp1 hp2 hparse
    obtain ⟨y1, m1, d1, _, _, _, hv1⟩ := Parse_some_digits _ _ hparse
    rw [hv1] at hshape
    rw [hshape] at hkp
    have hunder := objectName_under_folder t filePath
    rw [hdate] at hunder
    have hsame := key_folder_unique _ (yyyymmdd y m d) y1 m1 d1 (yyyymmdd_no_slash y m d)
      hunder hkp
    have hfd : fd = midnightUTC y m d := by
      rw [hv1, ← hsame, Parse_yyyymmdd y m d hv, Date_eq_midnightUTC y m d hv] at hparse
      exact (Option.some.inj hparse).symm
    subst hfd
    have := (olderThanThreeDays_iff (W.Now s0).1 (midnightUTC y m d) (hnorm s0).1 (hnorm s0).2
      (le_refl _) (show (0 : Int) < 1000000000 by decide)).1 hold
    have := hclock s0
    omega

/-- C3 (amended), at a concrete run: a picture stored on 2024-06-01 at 12:00
UTC is not deleted by a sweep at exactly 2024-06-04 00:00:00 UTC. -/
theorem C3_sweep_keeps_witness :
    objectName ⟨1717243200, 0, 0⟩ "photo.jpg" = "raspi/20240601/0_photo.jpg" ∧
    objectName ⟨1717243200, 0, 0⟩ "photo.jpg" ∉
      deletedKeys (listAndCleanOldFolders (bucketWorld defaultMaxKeys ⟨1717459200, 0, 0⟩) 1
        sampleConfig ⟨["raspi/20240601/0_photo.jpg"]⟩).2.2 :=
  ⟨by decide!,
   C3_sweep_keeps_folders_within_72h (bucketWorld defaultMaxKeys ⟨1717459200, 0, 0⟩)
     (bucketWorld_sound _ _) ⟨1717243200, 0, 0⟩ "photo.jpg" 2024 6 1 (by decide) (by decide!)
     (fun _ => show (0 : Int) ≤ 0 ∧ (0 : Int) < 1000000000 from ⟨le_refl _, by decide⟩)
     (fun _ => show (⟨1717459200, 0, 0⟩ : Time).nanos - (midnightUTC 2024 6 1).nanos
        ≤ 72 * 3600 * 1000000000 from by decide!) 1 sampleConfig
     ⟨["raspi/20240601/0_photo.jpg"]⟩⟩

/-- C3 as stated fails: a picture stored on 2024-06-01 at 12:00:00 UTC lands in
`raspi/20240601/`; a sweep on 2024-06-04 at 00:00:01 UTC, 60 hours and one
second later, finds that folder older than three days and deletes the
picture. -/
theorem C3_counterexample_deleted_after_60h :
    (uploadToOSS (bucketWorld defaultMaxKeys ⟨1717243200, 0, 0⟩) sampleConfig "photo.jpg" ⟨[]⟩).2.1
      = ⟨["raspi/20240601/0_photo.jpg"]⟩ ∧
    (⟨1717459201, 0, 0⟩ : Time).nanos - (⟨1717243200, 0, 0⟩ : Time).nanos ≤ 72 * Hour ∧
    listAndCleanOldFolders (bucketWorld defaultMaxKeys ⟨1717459201, 0, 0⟩) 1 sampleConfig
        ⟨["raspi/20240601/0_photo.jpg"]⟩
      = (some (.ok ()), ⟨[]⟩,
         [Event.ListObjects (folderListing "") true,
          Event.ListObjects ⟨"raspi/20240601/", none, none⟩ true,
          Event.DeleteObjects ["raspi/20240601/0_photo.jpg"] true,
          Event.Println "已删除过期文件夹: raspi/20240601/"]) := by
  refine ⟨by decide!, by decide!, by decide!⟩

end DingtalkPicNotify

namespace Calendar

open Go Go.time

theorem cycle_step (x k q r : Int) (hk : 0 < k) (h : x = k * q + r) (h0 : 0 ≤ r) (h1 : r < k) :
    x / k = q := by
  subst h
  rw [Int.add_comm, Int.add_mul_ediv_left _ _ (ne_of_gt hk), Int.ediv_eq_zero_of_lt h0 h1]
  simp

theorem century_step (x b r : Int) (h : x = 36524 * b + r) (hb : 0 ≤ b) (hb3 : b ≤ 3)
    (h0 : 0 ≤ r) (h1 : r ≤ 36524) (h2 : r = 36524 → b = 3) :
    x / 36524 - x / 36524 / 4 = b := by
  subst h
  omega

theorem year_step (x e r : Int) (h : x = 365 * e + r) (he : 0 ≤ e) (he3 : e ≤ 3)
    (h0 : 0 ≤ r) (h1 : r ≤ 365) (h2 : r = 365 → e = 3) :
    x / 365 - x / 365 / 4 = e := by
  subst h
  omega

theorem absYearDay_arith (abs N a b c e yd : Int) (hN : abs / 86400 = N)
    (hdec : N = 146097 * a + 36524 * b + 1461 * c + 365 * e + yd)
    (ha : 0 ≤ a) (ha2 : a ≤ 800000000) (hb : 0 ≤ b) (hb3 : b ≤ 3) (hc : 0 ≤ c) (hc24 : c ≤ 24)
    (he : 0 ≤ e) (he3 : e ≤ 3) (hyd : 0 ≤ yd) (hyd2 : yd ≤ 365)
    (hleap : yd = 365 → e = 3 ∧ (c ≠ 24 ∨ b = 3)) :
    absYearDay abs = (400 * a + 100 * b + 4 * c + e - 292277022399, yd) := by
  have r3 : 0 ≤ 365 * e + yd ∧ 365 * e + yd ≤ 1460 := by omega
  have r2 : 0 ≤ 1461 * c + (365 * e + yd) ∧ 1461 * c + (365 * e + yd) ≤ 36524 ∧
      (1461 * c + (365 * e + yd) = 36524 → b = 3) := by omega
  have r1 : 0 ≤ 36524 * b + (1461 * c + (365 * e + yd)) ∧
      36524 * b + (1461 * c + (365 * e + yd)) < 146097 := by omega
  have h1 : N / 146097 = a :=
    cycle_step N 146097 a _ (by decide) (by rw [hdec]; ring) r1.1 r1.2
  have h2 : (N - 146097 * a) / 36524 - (N - 146097 * a) / 36524 / 4 = b :=
    century_step _ b (1461 * c + (365 * e + yd)) (by rw [hdec]; ring) hb hb3 r2.1 r2.2.1 r2.2.2
  have h3 : (N - 146097 * a - 36524 * b) / 1461 = c :=
    cycle_step _ 1461 c (365 * e + yd) (by decide) (by rw [hdec]; ring) r3.1 (by omega)
  have h4 : (N - 146097 * a - 36524 * b - 1461 * c) / 365
      - (N - 146097 * a - 36524 * b - 1461 * c) / 365 / 4 = e :=
    year_step _ e yd (by rw [hdec]; ring) he he3 hyd hyd2 (fun h => (hleap h).1)
  unfold absYearDay
  simp only [secondsPerDay, daysPer400Years, daysPer100Years, daysPer4Years, absoluteZeroYear,
    Int.reduceMul, Int.reduceAdd, hN, h1, h2, h3, h4]
  refine Prod.ext ?_ ?_
  · simp only
    unfold wrapInt64
    omega
  · simp only
    omega

end Calendar

namespace Calendar

open Go Go.time

theorem year_decomposition (y : Nat) (hy : y ≤ 9999) (Y a b c e : Int)
    (hY : Y = (y : Int) + 292277022399) (ha : a = Y / 400) (hb : b = (Y - 400 * a) / 100)
    (hc : c = (Y - 400 * a - 100 * b) / 4) (he : e = Y - 400 * a - 100 * b - 4 * c) :
    0 ≤ a ∧ a ≤ 800000000 ∧ 0 ≤ b ∧ b ≤ 3 ∧ 0 ≤ c ∧ c ≤ 24 ∧ 0 ≤ e ∧ e ≤ 3 ∧
    400 * a + 100 * b + 4 * c + e - 292277022399 = y ∧
    (((y % 4 = 0 ∧ y % 100 ≠ 0) ∨ y % 400 = 0) → e = 3 ∧ (c ≠ 24 ∨ b = 3)) := by
  subst hY
  omega

theorem daysBeforeYear_cycles (Y n1 n2 n3 : Int) (y D : Nat) (hy : y ≤ 9999)
    (hY : (y : Int) + 292277022399 = Y) (hn1 : Y / 400 = n1)
    (hn2 : (Y - 400 * n1) / 100 = n2) (hn3 : (Y - 400 * n1 - 100 * n2) / 4 = n3)
    (hc : D + (y + 99) / 100 = 365 * y + (y + 3) / 4 + (y + 399) / 400) :
    (D : Int) + 106751990353566
      = 146097 * n1 + 36524 * n2 + 1461 * n3 + 365 * (Y - 400 * n1 - 100 * n2 - 4 * n3) := by
  have e1 : ((y + 399) / 400 : Nat) = n1 - 730692555 := by omega
  have e2 : ((y + 99) / 100 : Nat) = 4 * (n1 - 730692555) - 3 + n2 := by omega
  have e3 : ((y + 3) / 4 : Nat) = 100 * (n1 - 730692555) - 99 + 25 * n2 + n3 := by omega
  omega

theorem absYearDay_eq (y yd : Nat) (hy : y ≤ 9999) (hyd : yd < yearLength y) (abs : Int)
    (h : abs / 86400 = (daysBeforeYear y : Int) + 106751990353566 + yd) :
    absYearDay abs = ((y : Int), (yd : Int)) := by
  obtain ⟨ha, ha2, hb, hb3, hc, hc24, he, he3, hyear, hleap⟩ :=
    year_decomposition y hy _ _ _ _ _ rfl rfl rfl rfl rfl
  have hsum := daysBeforeYear_cycles _ _ _ _ y (daysBeforeYear y) hy rfl rfl rfl rfl
    (daysBeforeYear_closed y)
  rw [yearLength_eq] at hyd
  have hyd365 : (yd : Int) ≤ 365 := by split_ifs at hyd <;> omega
  have hl : (yd : Int) = 365 → ((y % 4 = 0 ∧ y % 100 ≠ 0) ∨ y % 400 = 0) := by
    intro h365
    split_ifs at hyd with hl
    · exact hl
    · omega
  rw [← hyear]
  exact absYearDay_arith abs _ _ _ _ _ (yd : Int) h (by rw [hsum]) ha ha2 hb hb3 hc hc24 he he3
    (Int.ofNat_nonneg _) hyd365 (fun h365 => hleap (hl h365))

end Calendar

namespace Calendar

open Go Go.time

/-- The month table of `absDate`, checked on every day of a leap and of a
common year. -/
theorem monthDay_table :
    ∀ leap : Bool, ∀ m < 13, ∀ d < 32, (1 ≤ m ∧ 1 ≤ d ∧ d ≤ monthDays leap m) →
      monthDay leap ((daysBeforeMonthOf leap m + (d - 1) : Nat) : Int) = ((m : Int), (d : Int)) := by
  intro leap
  cases leap <;> decide!

theorem yearDay_lt (leap : Bool) :
    ∀ m < 13, ∀ d < 32, (1 ≤ m ∧ 1 ≤ d ∧ d ≤ monthDays leap m) →
      daysBeforeMonthOf leap m + (d - 1) < (if leap = true then 366 else 365) := by
  cases leap <;> decide!

/-- `absDate` inverts the day count: the day `y`-`m`-`d`, at any second of it. -/
theorem absDate_eq (y m d : Nat) (hv : ValidDate y m d) (abs : Int)
    (h : abs / 86400 = (daysBeforeYear y : Int) + 106751990353566
      + ((daysBeforeMonth y m + (d - 1) : Nat) : Int)) :
    absDate abs = ((y : Int), (m : Int), (d : Int)) := by
  obtain ⟨hy, hm1, hm12, hd1, hd⟩ := hv
  have hd31 : d ≤ 31 := le_trans hd (monthLength_le y m)
  have hyd : daysBeforeMonth y m + (d - 1) < yearLength y := by
    have := yearDay_lt (leapYear y) m (by omega) d (by omega) ⟨hm1, hd1, hd⟩
    unfold yearLength daysBeforeMonth
    exact this
  unfold absDate
  rw [absYearDay_eq y _ hy hyd abs h]
  simp only [isLeap_eq]
  have := monthDay_table (leapYear y) m (by omega) d (by omega) ⟨hm1, hd1, hd⟩
  unfold daysBeforeMonth
  rw [this]

/-- `Time.abs` of a time on the date `y`-`m`-`d`. -/
theorem abs_onDate (t : Time) (y m d : Nat) (h : OnDate t y m d) :
    t.abs / 86400 = (daysBeforeYear y : Int) + 106751990353566
      + ((daysBeforeMonth y m + (d - 1) : Nat) : Int) := by
  obtain ⟨⟨hy, hm1, hm12, hd1, hd⟩, hlo, hhi⟩ := h
  have hD : daysBeforeYear y ≤ 3652425 := by
    have := daysBeforeYear_closed y
    omega
  have hM := daysBeforeMonth_le y m hm12
  have hd31 : d ≤ 31 := le_trans hd (monthLength_le y m)
  obtain ⟨_, _, c3, c4⟩ := epoch_constants
  unfold Time.abs wrapUint64
  rw [c3, c4]
  unfold unixDay at hlo hhi
  generalize t.unixSec + t.offset = x at *
  have hS : ((daysBeforeYear y + daysBeforeMonth y m + (d - 1) : Nat) : Int)
      = (daysBeforeYear y : Int) + ((daysBeforeMonth y m + (d - 1) : Nat) : Int) := by
    push_cast; omega
  generalize hSS : ((daysBeforeYear y + daysBeforeMonth y m + (d - 1) : Nat) : Int) = S at *
  have hS0 : 0 ≤ S ∧ S ≤ 3652425 + 335 + 30 := by omega
  rw [Int.add_right_comm, ← hS]
  have hx : (x + (62135596800 + 9223371966579724800)) % 2 ^ 64
      = 86400 * (S + 106751990353566) + (x - 86400 * (S - 719528)) := by
    omega
  rw [hx]
  exact cycle_step _ 86400 _ _ (by decide) rfl (by omega) (by omega)

end Calendar

namespace Calendar

open Go Go.time

theorem natDigitChar_eq (k : Nat) (h : k < 10) : Nat.digitChar k = digitChar k := by
  interval_cases k <;> rfl

theorem toDigitsCore_small (f n : Nat) (ds : List Char) (hn : n < 10) :
    Nat.toDigitsCore 10 (f + 1) n ds = digitChar n :: ds := by
  have h1 : n / 10 = 0 := Nat.div_eq_of_lt hn
  have h2 : n % 10 = n := Nat.mod_eq_of_lt hn
  simp only [Nat.toDigitsCore, h1, h2, if_true, natDigitChar_eq n hn]

theorem toDigitsCore_step (f n : Nat) (ds : List Char) (hn : 10 ≤ n) :
    Nat.toDigitsCore 10 (f + 1) n ds = Nat.toDigitsCore 10 f (n / 10) (digitChar n :: ds) := by
  have h1 : n / 10 ≠ 0 := by omega
  have h2 : Nat.digitChar (n % 10) = digitChar n := by
    rw [natDigitChar_eq _ (Nat.mod_lt _ (by decide))]
    exact digitChar_congr _ _ (Nat.mod_mod _ _)
  simp only [Nat.toDigitsCore, h1, if_false, h2]

/-- The decimal digits of a number below 10000. -/
theorem repr_data (n : Nat) (h : n < 10000) :
    (Nat.repr n).data =
      if n < 10 then [digitChar n]
      else if n < 100 then [digitChar (n / 10), digitChar n]
      else if n < 1000 then [digitChar (n / 100), digitChar (n / 10), digitChar n]
      else [digitChar (n / 1000), digitChar (n / 100), digitChar (n / 10), digitChar n] := by
  unfold Nat.repr Nat.toDigits
  simp only [List.asString]
  by_cases h1 : n < 10
  · rw [if_pos h1, toDigitsCore_small n n [] h1]
  · rw [if_neg h1]
    obtain ⟨f1, hf1⟩ : ∃ f, n = f + 1 := ⟨n - 1, by omega⟩
    rw [toDigitsCore_step n n [] (by omega)]
    by_cases h2 : n < 100
    · rw [if_pos h2]
      nth_rewrite 1 [hf1]
      rw [toDigitsCore_small f1 (n / 10) _ (by omega)]
    · rw [if_neg h2]
      obtain ⟨f2, hf2⟩ : ∃ f, f1 = f + 1 := ⟨f1 - 1, by omega⟩
      nth_rewrite 1 [hf1]
      rw [toDigitsCore_step f1 (n / 10) _ (by omega), Nat.div_div_eq_div_mul]
      by_cases h3 : n < 1000
      · rw [if_pos h3]
        nth_rewrite 1 [hf2]
        rw [toDigitsCore_small f2 (n / (10 * 10)) _ (by omega)]
      · rw [if_neg h3]
        obtain ⟨f3, hf3⟩ : ∃ f, f2 = f + 1 := ⟨f2 - 1, by omega⟩
        nth_rewrite 1 [hf2]
        rw [toDigitsCore_step f2 (n / (10 * 10)) _ (by omega), Nat.div_div_eq_div_mul]
        nth_rewrite 1 [hf3]
        rw [toDigitsCore_small f3 (n / (10 * 10 * 10)) _ (by omega)]

theorem digitChar_zero (n : Nat) (h : n % 10 = 0) : digitChar n = '0' := by
  unfold digitChar
  rw [h]

theorem appendInt_two (n : Nat) (h : n < 100) :
    appendInt (n : Int) 2 = String.mk [digitChar (n / 10), digitChar n] := by
  unfold appendInt
  have hneg : ¬ ((n : Int) < 0) := by omega
  simp only [Int.natAbs_ofNat, hneg, if_false]
  apply String.ext
  rw [String.data_append, String.length, repr_data n (by omega)]
  by_cases h1 : n < 10
  · simp only [h1, if_true, List.length_singleton]
    rw [digitChar_zero (n / 10) (by omega)]
    rfl
  · simp only [h1, if_false, h, if_true, List.length_cons, List.length_nil]
    rfl

theorem appendInt_four (n : Nat) (h : n < 10000) : appendInt (n : Int) 4 =
    String.mk [digitChar (n / 1000), digitChar (n / 100), digitChar (n / 10), digitChar n] := by
  unfold appendInt
  have hneg : ¬ ((n : Int) < 0) := by omega
  simp only [Int.natAbs_ofNat, hneg, if_false]
  apply String.ext
  rw [String.data_append, String.length, repr_data n h]
  by_cases h1 : n < 10
  · simp only [h1, if_true, List.length_singleton]
    rw [digitChar_zero (n / 1000) (by omega), digitChar_zero (n / 100) (by omega),
      digitChar_zero (n / 10) (by omega)]
    rfl
  · by_cases h2 : n < 100
    · simp only [h1, if_false, h2, if_true, List.length_cons, List.length_nil]
      rw [digitChar_zero (n / 1000) (by omega), digitChar_zero (n / 100) (by omega)]
      rfl
    · by_cases h3 : n < 1000
      · simp only [h1, if_false, h2, h3, if_true, List.length_cons, List.length_nil]
        rw [digitChar_zero (n / 1000) (by omega)]
        rfl
      · simp only [h1, if_false, h2, h3, List.length_cons, List.length_nil]
        rfl

/-- `Format("20060102")` renders the date the wall clock shows, as eight digits. -/
theorem Format20060102_onDate (t : Time) (y m d : Nat) (h : OnDate t y m d) :
    t.Format20060102 = yyyymmdd y m d := by
  obtain ⟨hy, hm1, hm12, hd1, hd⟩ := h.1
  have hd31 : d ≤ 31 := le_trans hd (monthLength_le y m)
  unfold Time.Format20060102
  rw [absDate_eq y m d h.1 t.abs (abs_onDate t y m d h)]
  simp only
  rw [appendInt_four y (by omega), appendInt_two m (by omega), appendInt_two d (by omega)]
  rfl

end Calendar

namespace DingtalkPicNotify

open Go Go.time Go.crypto Oss Calendar

variable {σ : Type}

/-- While `UnixNano` fits an `int64`, line 63 computes the millisecond of the
current second. -/
theorem millis_eq (now : Time) (h0 : 0 ≤ now.nsec) (h1 : now.nsec < 1000000000)
    (hs : 0 ≤ now.unixSec) (hr : now.unixSec * 1000000000 + now.nsec < 9223372036854775808) :
    Int.tmod (Int.tdiv now.UnixNano 1000000) 1000 = now.nsec / 1000000 := by
  have hw : now.UnixNano = now.unixSec * 1000000000 + now.nsec := by
    unfold Time.UnixNano
    exact wrapInt64_of_range _ (by omega) (by omega)
  rw [hw, Int.tdiv_eq_ediv (by omega) (by decide), Int.tmod_eq_emod (by omega) (by decide)]
  omega

theorem fmtInt_nonneg (x : Int) (h : 0 ≤ x) : fmtInt x = Nat.repr x.toNat := by
  unfold fmtInt
  rw [if_neg (by omega)]
  congr 1
  omega

/-- C6 (amended). When the client, the bucket, the file and the store all
succeed, and the current time `now` lies between the Unix epoch and the last
instant whose `UnixNano` fits an `int64` (2262-04-11T23:47:16.854775807Z),
`uploadToOSS` stores the file under `raspi/` + YYYYMMDD of the date the clock
shows + `/` + the millisecond of the current second in decimal (0 to 999) +
`_` + the base name of the path, and returns `https://` + bucket + `.` +
endpoint + `/` + that key. -/
theorem C6_upload_key_and_url (W : World σ) (config : Config) (filePath file : String)
    (s s1 s2 s3 : σ) (now : Time) (y m d : Nat)
    (hNew : W.New config.AliyunOSS.Endpoint config.AliyunOSS.AccessKeyID
      config.AliyunOSS.AccessKeySecret = .ok ())
    (hBucket : W.Bucket config.AliyunOSS.BucketName = .ok ())
    (hOpen : W.Open filePath s = (.ok file, s1))
    (hNow : W.Now s1 = (now, s2))
    (hdate : OnDate now y m d)
    (hnsec : 0 ≤ now.nsec ∧ now.nsec < 1000000000)
    (hepoch : 0 ≤ now.unixSec)
    (hrange : now.nanos < 9223372036854775808)
    (hPut : W.PutObject ("raspi/" ++ yyyymmdd y m d ++ "/" ++ Nat.repr (now.nsec / 1000000).toNat
      ++ "_" ++ Base filePath) file s2 = (.ok (), s3)) :
    (now.nsec / 1000000).toNat < 1000 ∧
    uploadToOSS W config filePath s =
      (.ok ("https://" ++ config.AliyunOSS.BucketName ++ "." ++ config.AliyunOSS.Endpoint ++ "/"
          ++ ("raspi/" ++ yyyymmdd y m d ++ "/" ++ Nat.repr (now.nsec / 1000000).toNat
            ++ "_" ++ Base filePath)),
       s3,
       [Event.PutObject ("raspi/" ++ yyyymmdd y m d ++ "/" ++ Nat.repr (now.nsec / 1000000).toNat
          ++ "_" ++ Base filePath) file true]) := by
  have hname : objectName now filePath = "raspi/" ++ yyyymmdd y m d ++ "/"
      ++ Nat.repr (now.nsec / 1000000).toNat ++ "_" ++ Base filePath := by
    unfold objectName
    simp only
    rw [Format20060102_onDate now y m d hdate,
      millis_eq now hnsec.1 hnsec.2 hepoch (by unfold Time.nanos at hrange; exact hrange),
      fmtInt_nonneg _ (by omega)]
  refine ⟨by omega, ?_⟩
  unfold uploadToOSS
  simp only [hNew, hBucket, hOpen, hNow, hname, hPut]

/-- C6 (amended) on the scenario of the specification: `photo.jpg` uploaded on
2024-06-01 at 12:00:00.123 (UTC+8) goes to `raspi/20240601/123_photo.jpg`. -/
theorem C6_upload_witness :
    OnDate ⟨1717214400, 123000000, 28800⟩ 2024 6 1 ∧
    uploadToOSS (bucketWorld defaultMaxKeys ⟨1717214400, 123000000, 28800⟩) sampleConfig
        "/home/pi/photo.jpg" ⟨[]⟩ =
      (.ok ("https://" ++ "pics" ++ "." ++ "oss-cn-hangzhou.aliyuncs.com" ++ "/"
          ++ ("raspi/" ++ yyyymmdd 2024 6 1 ++ "/" ++ Nat.repr 123 ++ "_" ++ "photo.jpg")),
       ⟨["raspi/20240601/123_photo.jpg"]⟩,
       [Event.PutObject ("raspi/" ++ yyyymmdd 2024 6 1 ++ "/" ++ Nat.repr 123 ++ "_" ++ "photo.jpg")
          "/home/pi/photo.jpg" true]) ∧
    "https://" ++ "pics" ++ "." ++ "oss-cn-hangzhou.aliyuncs.com" ++ "/"
          ++ ("raspi/" ++ yyyymmdd 2024 6 1 ++ "/" ++ Nat.repr 123 ++ "_" ++ "photo.jpg")
      = "https://pics.oss-cn-hangzhou.aliyuncs.com/raspi/20240601/123_photo.jpg" :=
  ⟨by decide!,
   (C6_upload_key_and_url (bucketWorld defaultMaxKeys ⟨1717214400, 123000000, 28800⟩)
      sampleConfig "/home/pi/photo.jpg" "/home/pi/photo.jpg" ⟨[]⟩ ⟨[]⟩ ⟨[]⟩
      ⟨["raspi/20240601/123_photo.jpg"]⟩ ⟨1717214400, 123000000, 28800⟩ 2024 6 1
      rfl rfl rfl rfl (by decide!) (by decide) (by decide) (by decide!) (by decide!)).2,
   by decide!⟩

/-- C6 as stated fails: on 2300-01-01 at 00:00:00.123 UTC (after the epoch,
year below 9999) `UnixNano` has wrapped around, line 63 yields −586, and the
object is named `-586_photo.jpg` in the folder `raspi/23000101`, not
`123_photo.jpg`. -/
theorem C6_counterexample_year_2300 :
    OnDate ⟨10413792000, 123000000, 0⟩ 2300 1 1 ∧
    (0 : Int) ≤ (⟨10413792000, 123000000, 0⟩ : Time).unixSec ∧
    (⟨10413792000, 123000000, 0⟩ : Time).nsec / 1000000 = 123 ∧
    uploadToOSS (bucketWorld defaultMaxKeys ⟨10413792000, 123000000, 0⟩) sampleConfig
        "photo.jpg" ⟨[]⟩ =
      (.ok "https://pics.oss-cn-hangzhou.aliyuncs.com/raspi/23000101/-586_photo.jpg",
       ⟨["raspi/23000101/-586_photo.jpg"]⟩,
       [Event.PutObject "raspi/23000101/-586_photo.jpg" "photo.jpg" true]) := by
  refine ⟨by decide!, by decide, by decide, by decide!⟩

end DingtalkPicNotify

namespace DingtalkPicNotify

open Go Go.time Go.crypto Oss Calendar

variable {σ : Type}

/-- The decimal rendering of a number below 1000 reads back as that number. -/
theorem repr_reads_back : ∀ m : Nat, m < 1000 → leadingInt 0 (Nat.repr m).data = (m, []) := by
  decide!

theorem repr_no_underscore (m : Nat) (h : m < 1000) : '_' ∉ (Nat.repr m).data := by
  intro hmem
  have := leadingInt_digits _ _ _ (repr_reads_back m h) '_' hmem
  exact absurd this (by decide)

theorem repr_injective (m1 m2 : Nat) (h1 : m1 < 1000) (h2 : m2 < 1000)
    (h : (Nat.repr m1).data = (Nat.repr m2).data) : m1 = m2 := by
  have e1 := repr_reads_back m1 h1
  have e2 := repr_reads_back m2 h2
  rw [h, e2] at e1
  exact (Prod.mk.inj e1).1.symm

/-- Keys of the shape `raspi/{D}/{m}_{b}` with eight-character `D` and `m`
below 1000 agree only when `D`, `m` and `b` do. -/
theorem key_injective (D1 D2 b1 b2 : String) (m1 m2 : Nat)
    (hD1 : D1.length = 8) (hD2 : D2.length = 8) (hm1 : m1 < 1000) (hm2 : m2 < 1000)
    (h : "raspi/" ++ D1 ++ "/" ++ Nat.repr m1 ++ "_" ++ b1
       = "raspi/" ++ D2 ++ "/" ++ Nat.repr m2 ++ "_" ++ b2) :
    D1 = D2 ∧ m1 = m2 ∧ b1 = b2 := by
  have hd := congrArg String.data h
  simp only [String.data_append, List.append_assoc] at hd
  have h1 := List.append_cancel_left hd
  have hlen : D1.data.length = D2.data.length := by
    rw [← String.length, ← String.length, hD1, hD2]
  obtain ⟨hDD, h2⟩ := List.append_inj h1 hlen
  have h3 := List.append_cancel_left h2
  have h4 : (Nat.repr m1).data ++ '_' :: b1.data = (Nat.repr m2).data ++ '_' :: b2.data := by
    simpa using h3
  have h5 := split_at_separator (repr_no_underscore m1 hm1) (repr_no_underscore m2 hm2) h4
  have hmm := repr_injective m1 m2 hm1 hm2 h5
  refine ⟨String.ext hDD, hmm, ?_⟩
  rw [h5] at h4
  have h6 := List.append_cancel_left h4
  exact String.ext (List.cons.inj h6).2

end DingtalkPicNotify

namespace DingtalkPicNotify

open Go Go.time Go.crypto Oss Calendar

/-- C7. Keys `raspi/{D}/{m}_{b}` with an eight-character date `D` and a
millisecond `m` in 0..999 are equal only if the dates, the milliseconds and
the base names are (whatever the base names hold); the key `uploadToOSS`
builds at a time whose wall clock shows the four-digit-year date `y`-`m`-`d`
begins with `raspi/`, the eight digits of that date and `/`; and within the
range where line 63 yields the millisecond, two generated keys agree only if
date, millisecond and base name do. -/
theorem C7_object_keys_unique :
    (∀ (D1 D2 b1 b2 : String) (m1 m2 : Nat), D1.length = 8 → D2.length = 8 →
      m1 < 1000 → m2 < 1000 →
      "raspi/" ++ D1 ++ "/" ++ Nat.repr m1 ++ "_" ++ b1
        = "raspi/" ++ D2 ++ "/" ++ Nat.repr m2 ++ "_" ++ b2 →
      D1 = D2 ∧ m1 = m2 ∧ b1 = b2) ∧
    (∀ (t : Time) (filePath : String) (y m d : Nat), OnDate t y m d →
      HasPrefix (objectName t filePath) ("raspi/" ++ yyyymmdd y m d ++ "/") = true ∧
      (yyyymmdd y m d).length = 8 ∧ ∀ c ∈ (yyyymmdd y m d).data, c.isDigit = true) ∧
    (∀ (t1 t2 : Time) (p1 p2 : String) (y1 m1 d1 y2 m2 d2 : Nat),
      OnDate t1 y1 m1 d1 → OnDate t2 y2 m2 d2 →
      0 ≤ t1.nsec → t1.nsec < 1000000000 → 0 ≤ t1.unixSec → t1.nanos < 9223372036854775808 →
      0 ≤ t2.nsec → t2.nsec < 1000000000 → 0 ≤ t2.unixSec → t2.nanos < 9223372036854775808 →
      objectName t1 p1 = objectName t2 p2 →
      yyyymmdd y1 m1 d1 = yyyymmdd y2 m2 d2 ∧ t1.nsec / 1000000 = t2.nsec / 1000000 ∧
        Base p1 = Base p2) := by
  refine ⟨?_, ?_, ?_⟩
  · intro D1 D2 b1 b2 m1 m2 hD1 hD2 hm1 hm2 h
    exact key_injective D1 D2 b1 b2 m1 m2 hD1 hD2 hm1 hm2 h
  · intro t filePath y m d hdate
    refine ⟨?_, rfl, ?_⟩
    · have := objectName_under_folder t filePath
      rw [Format20060102_onDate t y m d hdate] at this
      exact this
    · intro c hc
      exact (isDigit_iff c).2 (yyyymmdd_chars y m d c hc)
  · intro t1 t2 p1 p2 y1 m1 d1 y2 m2 d2 hd1 hd2 a0 a1 a2 a3 b0 b1 b2 b3 h
    have hn1 : objectName t1 p1 = "raspi/" ++ yyyymmdd y1 m1 d1 ++ "/"
        ++ Nat.repr (t1.nsec / 1000000).toNat ++ "_" ++ Base p1 := by
      unfold objectName
      simp only
      rw [Format20060102_onDate t1 y1 m1 d1 hd1,
        millis_eq t1 a0 a1 a2 (by unfold Time.nanos at a3; exact a3), fmtInt_nonneg _ (by omega)]
    have hn2 : objectName t2 p2 = "raspi/" ++ yyyymmdd y2 m2 d2 ++ "/"
        ++ Nat.repr (t2.nsec / 1000000).toNat ++ "_" ++ Base p2 := by
      unfold objectName
      simp only
      rw [Format20060102_onDate t2 y2 m2 d2 hd2,
        millis_eq t2 b0 b1 b2 (by unfold Time.nanos at b3; exact b3), fmtInt_nonneg _ (by omega)]
    rw [hn1, hn2] at h
    obtain ⟨h1, h2, h3⟩ := key_injective (yyyymmdd y1 m1 d1) (yyyymmdd y2 m2 d2) _ _ _ _ rfl rfl
      (by omega) (by omega) h
    exact ⟨h1, by omega, h3⟩

end DingtalkPicNotify

namespace DingtalkPicNotify

open Go Go.time Go.crypto Oss Calendar

set_option maxHeartbeats 4000000 in
/-- C10 on a folder that holds more objects than one listing page: the first
sweep deletes the 100 keys of the page and leaves the 101st; a second sweep
right after it, at the same instant, deletes that one.  Both return no
error. -/
theorem C10_second_sweep_deletes_more :
    (listAndCleanOldFolders (bucketWorld defaultMaxKeys ⟨1717459201, 0, 0⟩) 1 sampleConfig
      (crowdedFolder 101)).1 = some (.ok ()) ∧
    (listAndCleanOldFolders (bucketWorld defaultMaxKeys ⟨1717459201, 0, 0⟩) 1 sampleConfig
      (crowdedFolder 101)).2.1 = ⟨["raspi/20200101/100_a.jpg"]⟩ ∧
    listAndCleanOldFolders (bucketWorld defaultMaxKeys ⟨1717459201, 0, 0⟩) 1 sampleConfig
        ⟨["raspi/20200101/100_a.jpg"]⟩
      = (some (.ok ()), ⟨[]⟩,
         [Event.ListObjects (folderListing "") true,
          Event.ListObjects ⟨"raspi/20200101/", none, none⟩ true,
          Event.DeleteObjects ["raspi/20200101/100_a.jpg"] true,
          Event.Println "已删除过期文件夹: raspi/20200101/"]) := by
  refine ⟨by decide!, by decide!, by decide!⟩

end DingtalkPicNotify
